import Mathlib

/-!
# Verification of the response-extraction layer

Shallow embedding, in Lean 4, of the two response parsers of the backend:

* `GeminiService._parse_gemini_response`   (gemini_service.py, lines 230-353)
* `ResumeAnalysisService._parse_analysis_response` together with
  `_validate_and_return` and `_manual_extraction`
  (resume_analysis_service.py, lines 305-440)

Both take the raw text of a generative-model response and produce a small
typed record, degrading through tiers: direct `json.loads`, substring
re-parse, manual/regex extraction, and hard-coded defaults.

Modelling conventions (each noted again at the definition it concerns):

* Python numbers (`int` and `float`) are modelled as one type, `ℚ`.  Every
  number the code manipulates comes from a decimal literal and is clamped
  into `[0, 100]`, so rationals are exact for them.  Non-finite floats
  (`nan`, `inf`) and the `NaN`/`Infinity` extensions of Python's JSON
  reader are outside the model.
* Python exceptions are explicit: fallible steps return `Except PyExc _`,
  and `try`/`except` clauses become matches on the error value.
* Python strings are Lean `String`s scanned as `List Char`; the ASCII
  whitespace set stands in for Python's (Unicode) one.
* Python dicts (insertion-ordered, last assignment wins) are association
  lists built with an update-in-place-or-append operation.
-/

/- `Rat.add`/`mul`/`inv`/`sub` are `@[irreducible]` in the library, which
blocks `decide`/`rfl` evaluation of the embedding on concrete inputs; the
kernel itself unfolds them regardless, so re-opening them is sound. -/
attribute [local semireducible] Rat.add Rat.mul Rat.inv Rat.sub

/-- A Python value produced by `json.loads` (after Python's conversions:
JSON `null` is Python `None`, here `JVal.null`).  `num` merges Python's
`int` and `float`; the merge is only observable through `str()` of a
numeric field, which no analysed path depends on. -/
inductive JVal where
  | null
  | bool (b : Bool)
  | num (q : ℚ)
  | str (s : String)
  | arr (elems : List JVal)
  | obj (members : List (String × JVal))

/-- Boolean equality on `JVal`, by simultaneous recursion with the lists. -/
def jvBeq : JVal → JVal → Bool
  | .null, .null => true
  | .bool a, .bool b => a == b
  | .num a, .num b => a == b
  | .str a, .str b => a == b
  | .arr a, .arr b =>
      let rec goA : List JVal → List JVal → Bool
        | [], [] => true
        | x :: xs, y :: ys => jvBeq x y && goA xs ys
        | _, _ => false
      goA a b
  | .obj a, .obj b =>
      let rec goO : List (String × JVal) → List (String × JVal) → Bool
        | [], [] => true
        | (k, x) :: xs, (l, y) :: ys => k == l && jvBeq x y && goO xs ys
        | _, _ => false
      goO a b
  | _, _ => false

/-- Python `'\t'`, `'\x0b'` etc.: the ASCII whitespace Python's `str.strip`
family removes (Unicode spaces are outside the model). -/
def isPyWs (c : Char) : Bool :=
  c == ' ' || c == '\t' || c == '\n' || c == '\r' || c == '\x0b' || c == '\x0c'

/-- JSON's whitespace set (RFC 8259 / Python's `json`): space, tab, LF, CR. -/
def isJWs (c : Char) : Bool :=
  c == ' ' || c == '\t' || c == '\n' || c == '\r'

def isDigitC (c : Char) : Bool := '0' ≤ c && c ≤ '9'

def jSkipWs : List Char → List Char
  | c :: cs => if isJWs c then jSkipWs cs else c :: cs
  | [] => []

/-- Digit span: the leading run of decimal digits, and what follows it. -/
def digitSpan : List Char → List Char × List Char
  | c :: cs =>
      if isDigitC c then
        let (ds, r) := digitSpan cs
        (c :: ds, r)
      else ([], c :: cs)
  | [] => ([], [])

def digitsNat (ds : List Char) : Nat :=
  ds.foldl (fun acc c => acc * 10 + (c.toNat - '0'.toNat)) 0

def hexDigitVal (c : Char) : Option Nat :=
  let n := c.toNat
  if 48 ≤ n ∧ n ≤ 57 then some (n - 48)
  else if 97 ≤ n ∧ n ≤ 102 then some (n - 87)
  else if 65 ≤ n ∧ n ≤ 70 then some (n - 55)
  else none

def hexQuad (a b c d : Char) : Option Nat := do
  let va ← hexDigitVal a
  let vb ← hexDigitVal b
  let vc ← hexDigitVal c
  let vd ← hexDigitVal d
  return ((va * 16 + vb) * 16 + vc) * 16 + vd

/-- The character a short JSON escape denotes (`\uXXXX` handled separately). -/
def escCharOf : Char → Option Char
  | '\x22' => some '\x22'
  | '\x5c' => some '\x5c'
  | '/' => some '/'
  | 'b' => some '\x08'
  | 'f' => some '\x0c'
  | 'n' => some '\n'
  | 'r' => some '\r'
  | 't' => some '\t'
  | _ => none

/-- Body of a JSON string after its opening quote, Python-strict: raw
control characters (below `0x20`) and unknown escapes are errors; `\uXXXX`
pairs of surrogates combine into one character.  A lone surrogate (legal
for Python, not a Lean `Char`) degrades to `Char.ofNat`'s fallback — no
analysed input contains one.  Returns the decoded body and the input after
the closing quote. -/
def jStrBodyF : Nat → List Char → Option (List Char × List Char)
  | 0, _ => none
  | _ + 1, [] => none
  | _ + 1, '\x22' :: rest => some ([], rest)
  | fuel + 1, '\x5c' :: 'u' :: a :: b :: c :: d :: '\x5c' :: 'u' :: a2 :: b2 :: c2 :: d2 :: rest2 =>
      match hexQuad a b c d with
      | none => none
      | some n =>
          let pair : Option Nat :=
            if 0xD800 ≤ n && n ≤ 0xDBFF then
              match hexQuad a2 b2 c2 d2 with
              | some m =>
                  if 0xDC00 ≤ m && m ≤ 0xDFFF then
                    some (0x10000 + (n - 0xD800) * 0x400 + (m - 0xDC00))
                  else none
              | none => none
            else none
          match pair with
          | some code =>
              match jStrBodyF fuel rest2 with
              | some (body, r) => some (Char.ofNat code :: body, r)
              | none => none
          | none =>
              match jStrBodyF fuel ('\x5c' :: 'u' :: a2 :: b2 :: c2 :: d2 :: rest2) with
              | some (body, r) => some (Char.ofNat n :: body, r)
              | none => none
  | fuel + 1, '\x5c' :: 'u' :: a :: b :: c :: d :: rest =>
      match hexQuad a b c d with
      | none => none
      | some n =>
          match jStrBodyF fuel rest with
          | some (body, r) => some (Char.ofNat n :: body, r)
          | none => none
  | fuel + 1, '\x5c' :: e :: rest =>
      match escCharOf e with
      | some ch =>
          match jStrBodyF fuel rest with
          | some (body, r) => some (ch :: body, r)
          | none => none
      | none => none
  | fuel + 1, c :: rest =>
      if c.toNat < 0x20 then none
      else
        match jStrBodyF fuel rest with
        | some (body, r) => some (c :: body, r)
        | none => none

/-- String body after the opening quote: the fuelled scanner at ample
fuel (each step consumes at least one character). -/
def jStrBody (cs : List Char) : Option (List Char × List Char) :=
  jStrBodyF (cs.length + 1) cs

/-- Integer part of a JSON number: `0` alone, or a nonzero-led digit run. -/
def jNumInt : List Char → Option (Nat × List Char)
  | [] => none
  | c :: rest =>
      if c == '0' then some (0, rest)
      else if isDigitC c then
        let (ds, r) := digitSpan (c :: rest)
        some (digitsNat ds, r)
      else none

/-- Fraction part: `.` followed by one-or-more digits, or nothing. -/
def jNumFrac : List Char → Option (Nat × Nat × List Char)
  | [] => some (0, 0, [])
  | c :: r =>
      if c == '.' then
        let (ds, r2) := digitSpan r
        if ds.isEmpty then none else some (digitsNat ds, ds.length, r2)
      else some (0, 0, c :: r)

/-- Exponent part: `e`/`E`, optional sign, one-or-more digits, or nothing. -/
def jNumExp : List Char → Option (Int × List Char)
  | [] => some (0, [])
  | c :: r =>
      if c == 'e' || c == 'E' then
        let (es, r1) : Int × List Char :=
          match r with
          | '+' :: r2 => (1, r2)
          | '-' :: r2 => (-1, r2)
          | _ => (1, r)
        let (ds, r2) := digitSpan r1
        if ds.isEmpty then none else some (es * (digitsNat ds : Int), r2)
      else some (0, c :: r)

/-- A JSON number, Python-strict: optional minus; `0` or a nonzero-led
digit run; optional `.` with at least one digit; optional exponent with at
least one digit.  Value is exact in `ℚ`. -/
def jNum (cs : List Char) : Option (ℚ × List Char) :=
  let (neg, cs1) : Bool × List Char :=
    match cs with
    | '-' :: r => (true, r)
    | _ => (false, cs)
  match jNumInt cs1 with
  | none => none
  | some (ipart, cs2) =>
      match jNumFrac cs2 with
      | none => none
      | some (fpart, flen, cs3) =>
          match jNumExp cs3 with
          | none => none
          | some (evAl, cs4) =>
              let base : ℚ := (ipart : ℚ) + (fpart : ℚ) / ((10 : ℚ) ^ flen)
              let mag : ℚ := base * (10 : ℚ) ^ evAl
              some (if neg then -mag else mag, cs4)

/-- Dict building as Python does it: assigning an existing key replaces the
value in place (keeping the key's position); a new key appends. -/
def objUpsert (ms : List (String × JVal)) (k : String) (v : JVal) : List (String × JVal) :=
  match ms with
  | [] => [(k, v)]
  | (k', v') :: rest =>
      if k' == k then (k', v) :: rest else (k', v') :: objUpsert rest k v

mutual
/-- One JSON value (fuel bounds nesting; callers pass input length + 1,
ample since each nesting level consumes input). -/
def jValP (fuel : Nat) (cs : List Char) : Option (JVal × List Char) :=
  match fuel with
  | 0 => none
  | fuel + 1 =>
    match cs with
    | 'n' :: 'u' :: 'l' :: 'l' :: r => some (.null, r)
    | 't' :: 'r' :: 'u' :: 'e' :: r => some (.bool true, r)
    | 'f' :: 'a' :: 'l' :: 's' :: 'e' :: r => some (.bool false, r)
    | '\x22' :: r =>
        match jStrBody r with
        | some (body, r') => some (.str (String.mk body), r')
        | none => none
    | '[' :: r =>
        match jSkipWs r with
        | ']' :: r' => some (.arr [], r')
        | r1 =>
            match jElemsP fuel r1 with
            | some (es, r') => some (.arr es, r')
            | none => none
    | '\x7b' :: r =>
        match jSkipWs r with
        | '\x7d' :: r' => some (.obj [], r')
        | r1 =>
            match jMembersP fuel r1 [] with
            | some (ms, r') => some (.obj ms, r')
            | none => none
    | c :: _ =>
        if c == '-' || isDigitC c then
          match jNum cs with
          | some (q, r') => some (.num q, r')
          | none => none
        else none
    | [] => none

/-- One-or-more comma-separated array elements up to `]`. -/
def jElemsP (fuel : Nat) (cs : List Char) : Option (List JVal × List Char) :=
  match fuel with
  | 0 => none
  | fuel + 1 =>
    match jValP fuel (jSkipWs cs) with
    | none => none
    | some (v, r) =>
        match jSkipWs r with
        | ',' :: r' =>
            match jElemsP fuel r' with
            | some (vs, r'') => some (v :: vs, r'')
            | none => none
        | ']' :: r' => some ([v], r')
        | _ => none

/-- One-or-more `"key": value` members up to the closing brace, collected
with `objUpsert` so duplicate keys behave as Python dict assignment. -/
def jMembersP (fuel : Nat) (cs : List Char) (acc : List (String × JVal)) :
    Option (List (String × JVal) × List Char) :=
  match fuel with
  | 0 => none
  | fuel + 1 =>
    match jSkipWs cs with
    | '\x22' :: r =>
        match jStrBody r with
        | none => none
        | some (key, r1) =>
            match jSkipWs r1 with
            | ':' :: r2 =>
                match jValP fuel (jSkipWs r2) with
                | none => none
                | some (v, r3) =>
                    let acc' := objUpsert acc (String.mk key) v
                    match jSkipWs r3 with
                    | ',' :: r4 => jMembersP fuel r4 acc'
                    | '\x7d' :: r4 => some (acc', r4)
                    | _ => none
            | _ => none
    | _ => none
end

/-- `json.loads`: skip surrounding whitespace, parse one value, reject
trailing input.  (Python's `NaN`/`Infinity` extension is outside the
`ℚ` model and treated as a parse error.) -/
def jsonLoads (s : String) : Option JVal :=
  let cs := jSkipWs s.data
  match jValP (cs.length + 1) cs with
  | some (v, r) => if (jSkipWs r).isEmpty then some v else none
  | none => none

/-! ## Python-level semantics: exceptions, coercions, string helpers -/

/-- The Python exceptions the analysed code can raise or catch.
`json.JSONDecodeError` is a subclass of `ValueError`; both are listed in
`_parse_gemini_response`'s `except` clause, `TypeError` and
`AttributeError` are not. -/
inductive PyExc where
  | jsonDecodeError
  | keyError
  | valueError
  | typeError
  | attributeError
deriving DecidableEq

/-- Stand-in for `str(e)` on an exception.  Only the error class is
modelled, not CPython's message text; no analysed property depends on the
wording. -/
def pyExcMsg : PyExc → String
  | .jsonDecodeError => "JSONDecodeError"
  | .keyError => "KeyError"
  | .valueError => "ValueError"
  | .typeError => "TypeError"
  | .attributeError => "AttributeError"

def pyStripL (cs : List Char) : List Char :=
  ((cs.dropWhile isPyWs).reverse.dropWhile isPyWs).reverse

def pyLStripL (cs : List Char) : List Char := cs.dropWhile isPyWs

def pyRStripL (cs : List Char) : List Char := (cs.reverse.dropWhile isPyWs).reverse

/-- Does `cs` begin with `pat`?  (Python `str.startswith`.) -/
def hasPre (pat cs : List Char) : Bool :=
  match pat, cs with
  | [], _ => true
  | _ :: _, [] => false
  | p :: ps, c :: rest => p == c && hasPre ps rest

/-- Does `cs` end with `pat`?  (Python `str.endswith`.) -/
def hasSuf (pat cs : List Char) : Bool := hasPre pat.reverse cs.reverse

/-- Python `pat in cs` (substring containment; true for the empty `pat`). -/
def containsL (pat : List Char) : List Char → Bool
  | [] => pat.isEmpty
  | c :: rest => hasPre pat (c :: rest) || containsL pat rest

/-- Python `str.find(c)`: index of the first occurrence, if any. -/
def idxOf? (c : Char) : List Char → Option Nat
  | [] => none
  | x :: rest => if x == c then some 0 else (idxOf? c rest).map (· + 1)

/-- Python `str.rfind(c)`: index of the last occurrence, if any. -/
def ridxOf? (c : Char) (cs : List Char) : Option Nat :=
  (idxOf? c cs.reverse).map (fun i => cs.length - 1 - i)

/-- Python slice `cs[a:b]` for `0 ≤ a ≤ b`. -/
def sliceL (cs : List Char) (a b : Nat) : List Char := (cs.take b).drop a

/-- Python slice `cs[:-n]`. -/
def dropLastL (cs : List Char) (n : Nat) : List Char := cs.take (cs.length - n)

/-- First-occurrence lookup in an association list; `json.loads` builds
objects with `objUpsert`, so keys are unique and this is Python `dict`
access. -/
def lookupKey (ms : List (String × JVal)) (k : String) : Option JVal :=
  match ms with
  | [] => none
  | (k', v) :: rest => if k' == k then some v else lookupKey rest k

/-- Python `d.get(k, dflt)` on a dict already known to be one. -/
def dictGetD (ms : List (String × JVal)) (k : String) (dflt : JVal) : JVal :=
  match lookupKey ms k with
  | some v => v
  | none => dflt

/-- Python truthiness, `bool(v)`, for `json.loads` values. -/
def pyBool : JVal → Bool
  | .null => false
  | .bool b => b
  | .num q => decide (q ≠ 0)
  | .str s => !s.data.isEmpty
  | .arr es => !es.isEmpty
  | .obj ms => !ms.isEmpty

/-- A Python `float(...)` literal: optional surrounding whitespace and
sign, digits with optional fraction, optional exponent.  (`inf`/`nan`
spellings and digit-group underscores are outside the `ℚ` model.) -/
def pyFloatLit (cs0 : List Char) : Option ℚ :=
  let cs := pyStripL cs0
  let (neg, cs1) : Bool × List Char := match cs with
    | '+' :: r => (false, r)
    | '-' :: r => (true, r)
    | _ => (false, cs)
  let (ids, r1) := digitSpan cs1
  let (fds, r2) : List Char × List Char := match r1 with
    | '.' :: r => digitSpan r
    | _ => ([], r1)
  if ids.isEmpty && fds.isEmpty then none
  else
    let ep : Option (Int × List Char) := match r2 with
      | 'e' :: r | 'E' :: r =>
          let (es, ra) : Int × List Char :=
            match r with
            | s :: rest =>
                if s = '+' then (1, rest)
                else if s = '-' then (-1, rest)
                else (1, s :: rest)
            | [] => (1, [])
          let (ds, rb) := digitSpan ra
          if ds.isEmpty then none else some (es * (digitsNat ds : Int), rb)
      | _ => some (0, r2)
    match ep with
    | none => none
    | some (evAl, r3) =>
        if r3.isEmpty then
          let base : ℚ := (digitsNat ids : ℚ) + (digitsNat fds : ℚ) / (10 : ℚ) ^ fds.length
          let mag : ℚ := base * (10 : ℚ) ^ evAl
          some (if neg then -mag else mag)
        else none

/-- Python `float(v)`: numbers pass through, bools coerce, strings parse
(`ValueError` on failure), and `None`/lists/dicts raise `TypeError`. -/
def pyFloat : JVal → Except PyExc ℚ
  | .num q => .ok q
  | .bool b => .ok (if b then 1 else 0)
  | .str s => match pyFloatLit s.data with
      | some q => .ok q
      | none => .error .valueError
  | .null => .error .typeError
  | .arr _ => .error .typeError
  | .obj _ => .error .typeError

/-- Decimal digit characters, most significant first (fuelled; the fuel
only needs to exceed the digit count, so `n + 1` is ample). -/
def natDigitCharsF : Nat → Nat → List Char
  | 0, _ => []
  | fuel + 1, n =>
      if n < 10 then [Char.ofNat ('0'.toNat + n)]
      else natDigitCharsF fuel (n / 10) ++ [Char.ofNat ('0'.toNat + n % 10)]

/-- Decimal digit characters of `n`, most significant first. -/
def natDigitChars (n : Nat) : List Char := natDigitCharsF (n + 1) n

/-- The least `k` with `d ∣ 10 ^ k`, when one exists: the fraction part
width needed to write a rational with denominator `d` in decimal. -/
def decExp (d : Nat) : Option Nat := (List.range (d + 1)).find? (fun k => d ∣ 10 ^ k)

/-- The decimal spelling `m / 10 ^ k`, always with a fraction part, as
Python's `repr` of a float: `renderDecQ 1405 1 = "140.5"`,
`renderDecQ 140 0 = "140.0"`. -/
def renderDecQ (m k : Nat) : List Char :=
  if k = 0 then natDigitChars m ++ ['.', '0']
  else
    let ds := natDigitChars m
    let padded := List.replicate (k + 1 - ds.length) '0' ++ ds
    dropLastL padded k ++ '.' :: (padded.drop (padded.length - k))

/-- `str(v)` for a number, approximating CPython: integer-valued rationals
print as ints (the `JVal.num` merge of `int`/`float` means a Python float
like `5.0` would print `5.0`; no analysed path observes the difference),
others in decimal when the denominator allows. -/
def pyNumRepr (q : ℚ) : String :=
  let sign := if q < 0 then "-" else ""
  if q.den = 1 then sign ++ String.mk (natDigitChars q.num.natAbs)
  else match decExp q.den with
    | some k => sign ++ String.mk (renderDecQ (q.num.natAbs * (10 ^ k / q.den)) k)
    | none => sign ++ String.mk (natDigitChars q.num.natAbs) ++ "/" ++ String.mk (natDigitChars q.den)

/-- `str(v)` on a `json.loads` value.  Strings pass through verbatim (the
only case the analysed records can reach together with the defaults);
containers print in a Python-`repr`-like shape whose inner string quoting
is approximate. -/
def pyStr : JVal → String
  | .str s => s
  | .bool true => "True"
  | .bool false => "False"
  | .null => "None"
  | .num q => pyNumRepr q
  | .arr es =>
      let rec goL : List JVal → String
        | [] => ""
        | [x] => pyStr x
        | x :: xs => pyStr x ++ ", " ++ goL xs
      "[" ++ goL es ++ "]"
  | .obj ms =>
      let rec goM : List (String × JVal) → String
        | [] => ""
        | [(k, v)] => k ++ ": " ++ pyStr v
        | (k, v) :: xs => k ++ ": " ++ pyStr v ++ ", " ++ goM xs
      "\x7b" ++ goM ms ++ "\x7d"

/-- `max(0, min(100, q))`: the clamp both services apply to scores. -/
def pyClamp (q : ℚ) : ℚ := max 0 (min 100 q)

/-! ## `GeminiService._parse_gemini_response` (gemini_service.py 230-353) -/

/-- The record `_parse_gemini_response` returns.  `extracted_data` stays a
`JVal` because the Python code can store non-string values there verbatim
(`extracted_data.get("company")` is kept whenever it is not a null
sentinel, whatever its type). -/
structure GeminiResult where
  is_authentic : Bool
  confidence_score : ℚ
  evidence : String
  extracted_data : JVal

/-- `default_extracted_data` (gemini_service.py 241-245). -/
def defaultExtractedData : JVal :=
  .obj [("company", .null), ("location", .null), ("industry", .null)]

/-- Lines 252-264: strip, remove a literal leading  three-backtick marker
with the fixed tag spelling `json` (7 characters) or a bare one (3
characters), remove a trailing marker, strip again. -/
def geminiDropHead (jt : List Char) : List Char :=
  if hasPre ['\x60', '\x60', '\x60', 'j', 's', 'o', 'n'] jt then jt.drop 7
  else if hasPre ['\x60', '\x60', '\x60'] jt then jt.drop 3
  else jt

def geminiDropTail (jt : List Char) : List Char :=
  if hasSuf ['\x60', '\x60', '\x60'] jt then dropLastL jt 3 else jt

def geminiFenceStripL (cs : List Char) : List Char :=
  pyStripL (geminiDropTail (geminiDropHead (pyStripL cs)))

/-- The same at `String` level, as `_parse_gemini_response` consumes it. -/
def geminiFenceStrip (s : String) : String := String.mk (geminiFenceStripL s.data)

/-- Line 281's null-sentinel test `v in [None, "null", ""]` (literal,
case-sensitive `==` comparisons; only `None` and the two exact strings
match — no other value compares equal to any list member). -/
def isNullSentinel : JVal → Bool
  | .null => true
  | .str s => s == "null" || s == ""
  | _ => false

/-- Lines 275-284: a non-dict `extracted_data` is replaced by the default;
a dict is rebuilt with exactly the three expected keys, null sentinels
dropped to `None` and every other value kept verbatim. -/
def normalizeExtracted : JVal → JVal
  | .obj ms =>
      let keep := fun k =>
        let v := dictGetD ms k .null
        if isNullSentinel v then JVal.null else v
      .obj [("company", keep "company"), ("location", keep "location"),
            ("industry", keep "industry")]
  | _ => defaultExtractedData

/-- The `try` body, lines 247-296.  `data.get(...)` on a non-dict raises
`AttributeError` at the first call (line 270), hence the single match on
the parsed value; `float(...)` at line 271 is the one other fallible step. -/
def geminiDirect (s : String) : Except PyExc GeminiResult :=
  match jsonLoads (geminiFenceStrip s) with
  | none => .error .jsonDecodeError
  | some (.obj ms) =>
      let is_authentic := pyBool (dictGetD ms "is_authentic" (.bool false))
      match pyFloat (dictGetD ms "confidence_score" (.num 0)) with
      | .error e => .error e
      | .ok confidence0 =>
          let evidence := pyStr (dictGetD ms "evidence" (.str "No evidence provided"))
          let extracted := normalizeExtracted (dictGetD ms "extracted_data" (.obj []))
          .ok ⟨is_authentic, pyClamp confidence0, evidence, extracted⟩
  | some _ => .error .attributeError

/-! ### Regex probes of the fallback tier (lines 309-344)

Each Python `re.search` is modelled as `reFirst tryAt`: the pattern is
attempted at every start position, leftmost match wins.  The patterns in
question (a fixed literal, then `\s*:\s*`, then a simple token) backtrack
deterministically, so a direct scan is equivalent. -/

/-- Leftmost-match search: try the pattern at each suffix. -/
def reFirst {α : Type} (tryAt : List Char → Option α) : List Char → Option α
  | [] => tryAt []
  | c :: rest =>
      match tryAt (c :: rest) with
      | some x => some x
      | none => reFirst tryAt rest

/-- Python `\s` for ASCII text: the same six characters as `isPyWs`. -/
def isReWs (c : Char) : Bool := isPyWs c

/-- Case-insensitive literal-prefix match (for `re.IGNORECASE`), returning
the remainder. -/
def stripLitCI : List Char → List Char → Option (List Char)
  | [], cs => some cs
  | _ :: _, [] => none
  | p :: ps, c :: cs => if p.toLower == c.toLower then stripLitCI ps cs else none

/-- Case-sensitive literal-prefix match, returning the remainder. -/
def stripLit : List Char → List Char → Option (List Char)
  | [], cs => some cs
  | _ :: _, [] => none
  | p :: ps, c :: cs => if p == c then stripLit ps cs else none

/-- After a matched field literal: `\s*`, `:`, `\s*`, returning the rest. -/
def afterColon (cs : List Char) : Option (List Char) :=
  match cs.dropWhile isReWs with
  | ':' :: r => some (r.dropWhile isReWs)
  | _ => none

/-- Line 310: `"is_authentic"\s*:\s*(true|false)` with `re.IGNORECASE`,
then line 312's `group(1).lower() == "true"`. -/
def iaTryAt (cs : List Char) : Option Bool := do
  let r ← stripLitCI "\"is_authentic\"".data cs
  let r2 ← afterColon r
  if (stripLitCI "true".data r2).isSome then pure true
  else if (stripLitCI "false".data r2).isSome then pure false
  else none

/-- Line 315: `"confidence_score"\s*:\s*(\d+\.?\d*)`; the captured text is
digits, an optional dot, optional digits, and line 318's `float` of it. -/
def confTryAt (cs : List Char) : Option ℚ := do
  let r ← stripLit "\"confidence_score\"".data cs
  let r2 ← afterColon r
  let (ds, r3) := digitSpan r2
  if ds.isEmpty then none
  else
    let (fs, _) : List Char × List Char := match r3 with
      | '.' :: r4 => digitSpan r4
      | _ => ([], r3)
    pure ((digitsNat ds : ℚ) + (digitsNat fs : ℚ) / (10 : ℚ) ^ fs.length)

/-- The content part of line 325's evidence pattern,
`((?:[^"\\]|\\.)*)"` with `re.DOTALL`: raw characters up to the first
unescaped quote (a backslash always consumes the following character). -/
def evBody : List Char → Option (List Char)
  | [] => none
  | '\x22' :: _ => some []
  | '\x5c' :: c :: rest => (evBody rest).map (fun b => '\x5c' :: c :: b)
  | ['\x5c'] => none
  | c :: rest => (evBody rest).map (fun b => c :: b)

/-- Line 325: `"evidence"\s*:\s*"((?:[^"\\]|\\.)*)"`, returning the raw
(still escaped) capture. -/
def evTryAt (cs : List Char) : Option (List Char) := do
  let r ← stripLit "\"evidence\"".data cs
  let r2 ← afterColon r
  match r2 with
  | '\x22' :: r3 => evBody r3
  | _ => none

/-- Lines 334-344: `"company"\s*:\s*"([^"]+)"` and its two analogues — a
nonempty run of non-quote characters closed by a quote. -/
def strFieldTryAt (field : String) (cs : List Char) : Option (List Char) := do
  let r ← stripLit ('\x22' :: field.data ++ ['\x22']) cs
  let r2 ← afterColon r
  match r2 with
  | '\x22' :: r3 =>
      let (body, r4) := r3.span (fun c => c != '\x22')
      if body.isEmpty then none
      else match r4 with
        | '\x22' :: _ => some body
        | _ => none
  | _ => none

/-- UTF-8 bytes of one character (standard encoding). -/
def utf8BytesC (c : Char) : List Nat :=
  let n := c.toNat
  if n < 0x80 then [n]
  else if n < 0x800 then [0xC0 + n / 64, 0x80 + n % 64]
  else if n < 0x10000 then [0xE0 + n / 4096, 0x80 + n / 64 % 64, 0x80 + n % 64]
  else [0xF0 + n / 262144, 0x80 + n / 4096 % 64, 0x80 + n / 64 % 64, 0x80 + n % 64]

/-- A non-ASCII character as it survives `.encode().decode('unicode_escape')`:
its UTF-8 bytes read back as Latin-1 (mojibake, faithfully). -/
def utf8Latin1 (c : Char) : List Char := (utf8BytesC c).map Char.ofNat

def isOctC (c : Char) : Bool := '0' ≤ c && c ≤ '7'

def octVal (c : Char) : Nat := c.toNat - '0'.toNat

mutual
/-- Line 329's `evidence.encode().decode('unicode_escape')`, fuelled (two
fuel per character is ample; fuel 0 is unreachable from `uescChars`).  The
codec's escape table: line continuation, `\\ \' \" \a \b \f \n \r \t \v`,
octal up to three digits, `\xHH`, `\uHHHH`, `\UHHHHHHHH`; an unrecognised
escape keeps the backslash; a trailing backslash and malformed
`\x`/`\u`/`\U` (and the unsupported-here `\N`) are errors.  `none` models
the raised `UnicodeDecodeError`, which line 328's `except` absorbs. -/
def uescCharsF : Nat → List Char → Option (List Char)
  | 0, _ => none
  | _ + 1, [] => some []
  | _ + 1, ['\x5c'] => none
  | fuel + 1, '\x5c' :: 'x' :: h1 :: h2 :: rest =>
      match hexDigitVal h1, hexDigitVal h2 with
      | some a, some b => (uescCharsF fuel rest).map (fun t => Char.ofNat (a * 16 + b) :: t)
      | _, _ => none
  | fuel + 1, '\x5c' :: 'u' :: h1 :: h2 :: h3 :: h4 :: rest =>
      match hexQuad h1 h2 h3 h4 with
      | some n => (uescCharsF fuel rest).map (fun t => Char.ofNat n :: t)
      | none => none
  | fuel + 1, '\x5c' :: 'U' :: h1 :: h2 :: h3 :: h4 :: h5 :: h6 :: h7 :: h8 :: rest =>
      match hexQuad h1 h2 h3 h4, hexQuad h5 h6 h7 h8 with
      | some hi, some lo =>
          if hi * 65536 + lo ≤ 0x10FFFF then
            (uescCharsF fuel rest).map (fun t => Char.ofNat (hi * 65536 + lo) :: t)
          else none
      | _, _ => none
  | fuel + 1, '\x5c' :: e :: d2 :: d3 :: rest =>
      if isOctC e && isOctC d2 && isOctC d3 then
        (uescCharsF fuel rest).map
          (fun t => Char.ofNat ((octVal e * 8 + octVal d2) * 8 + octVal d3) :: t)
      else if isOctC e && isOctC d2 then
        (uescCharsF fuel (d3 :: rest)).map (fun t => Char.ofNat (octVal e * 8 + octVal d2) :: t)
      else if isOctC e then
        (uescCharsF fuel (d2 :: d3 :: rest)).map (fun t => Char.ofNat (octVal e) :: t)
      else
        (uescEscF fuel e (d2 :: d3 :: rest))
  | fuel + 1, '\x5c' :: e :: d2 :: rest =>
      if isOctC e && isOctC d2 then
        (uescCharsF fuel rest).map (fun t => Char.ofNat (octVal e * 8 + octVal d2) :: t)
      else if isOctC e then
        (uescCharsF fuel (d2 :: rest)).map (fun t => Char.ofNat (octVal e) :: t)
      else uescEscF fuel e (d2 :: rest)
  | fuel + 1, ['\x5c', e] =>
      if isOctC e then some [Char.ofNat (octVal e)]
      else uescEscF fuel e []
  | fuel + 1, c :: rest =>
      (uescCharsF fuel rest).map
        (fun t => (if c.toNat < 0x80 then [c] else utf8Latin1 c) ++ t)

/-- One non-octal, non-`x`/`u`/`U` escape for `uescCharsF`: the named
table, or keep the backslash for unknown escapes (`\N` and a raw trailing
backslash are the error cases). -/
def uescEscF : Nat → Char → List Char → Option (List Char)
  | 0, _, _ => none
  | fuel + 1, e, rest =>
      if e == '\n' then uescCharsF fuel rest
      else if e == '\x5c' then (uescCharsF fuel rest).map (fun t => '\x5c' :: t)
      else if e == Char.ofNat 0x27 then (uescCharsF fuel rest).map (fun t => Char.ofNat 0x27 :: t)
      else if e == '\x22' then (uescCharsF fuel rest).map (fun t => '\x22' :: t)
      else if e == 'a' then (uescCharsF fuel rest).map (fun t => '\x07' :: t)
      else if e == 'b' then (uescCharsF fuel rest).map (fun t => '\x08' :: t)
      else if e == 'f' then (uescCharsF fuel rest).map (fun t => '\x0c' :: t)
      else if e == 'n' then (uescCharsF fuel rest).map (fun t => '\n' :: t)
      else if e == 'r' then (uescCharsF fuel rest).map (fun t => '\r' :: t)
      else if e == 't' then (uescCharsF fuel rest).map (fun t => '\t' :: t)
      else if e == 'v' then (uescCharsF fuel rest).map (fun t => '\x0b' :: t)
      else if e == 'N' then none
      else if e == 'x' || e == 'u' || e == 'U' then none
      else
        (uescCharsF fuel rest).map
          (fun t => '\x5c' :: (if e.toNat < 0x80 then [e] else utf8Latin1 e) ++ t)
end

/-- The codec at ample fuel. -/
def uescChars (cs : List Char) : Option (List Char) := uescCharsF (2 * cs.length + 2) cs

/-- Line 331's conservative fallback once the codec raised:
`.replace('\\n', '\n').replace('\\"', '"')`, in that order. -/
def geminiEvFallbackUnescape (raw : String) : String :=
  (raw.replace "\\n" "\n").replace "\\\"" "\""

/-- The `except` body, lines 298-353: regex probes over the *original*
response text, each defaulting when absent; score clamped; evidence
unescaped through the codec with the replace-chain as second fallback;
the three `extracted_data` updates land in the prebuilt default dict. -/
def geminiFallback (s : String) : GeminiResult :=
  let cs := s.data
  let is_authentic := match reFirst iaTryAt cs with
    | some b => b
    | none => false
  let confidence_score := match reFirst confTryAt cs with
    | some q => pyClamp q
    | none => 50
  let evidence := match reFirst evTryAt cs with
    | some raw =>
        match uescChars raw with
        | some decoded => String.mk decoded
        | none => geminiEvFallbackUnescape (String.mk raw)
    | none => "Analysis completed but response parsing failed. Please try again."
  let field := fun (name : String) =>
    match reFirst (strFieldTryAt name) cs with
    | some body => JVal.str (String.mk body)
    | none => JVal.null
  ⟨is_authentic, confidence_score, evidence,
   .obj [("company", field "company"), ("location", field "location"),
         ("industry", field "industry")]⟩

/-- Which exceptions line 298's
`except (json.JSONDecodeError, KeyError, ValueError)` catches
(`JSONDecodeError` is itself a `ValueError`). -/
def geminiCatches : PyExc → Bool
  | .jsonDecodeError => true
  | .keyError => true
  | .valueError => true
  | .typeError => false
  | .attributeError => false

/-- `_parse_gemini_response`: the `try` body, with the fallback tier for
caught exceptions; anything else (TypeError, AttributeError) propagates. -/
def parseGeminiResponse (s : String) : Except PyExc GeminiResult :=
  match geminiDirect s with
  | .ok r => .ok r
  | .error e => if geminiCatches e then .ok (geminiFallback s) else .error e

/-! ## `ResumeAnalysisService` parsers (resume_analysis_service.py 305-440) -/

/-- The record `_parse_analysis_response` returns on every path. -/
structure AnalysisResult where
  match_score : ℚ
  tips : String
deriving DecidableEq, Repr

/-- `_validate_and_return` (lines 379-386): `float` of the score (default
`50`), clamped; `str` of the tips (default `"No tips generated."`).
`data.get` on a non-dict raises `AttributeError`; `float` of a
null/list/dict score raises `TypeError`; both escape to the caller's
`except Exception`. -/
def validateAndReturnE (data : JVal) : Except PyExc AnalysisResult :=
  match data with
  | .obj ms =>
      match pyFloat (dictGetD ms "match_score" (.num 50)) with
      | .error e => .error e
      | .ok q =>
          .ok ⟨pyClamp q, pyStr (dictGetD ms "tips" (.str "No tips generated."))⟩
  | _ => .error .attributeError

/-- Line 394: `"match_score"\s*:\s*(\d+(?:\.\d+)?)` — digits with an
optional fraction that must itself contain a digit, then `float` of the
capture. -/
def scoreTryAt (cs : List Char) : Option ℚ := do
  let r ← stripLit "\"match_score\"".data cs
  let r2 ← afterColon r
  let (ds, r3) := digitSpan r2
  if ds.isEmpty then none
  else
    let frac : Option (List Char) := match r3 with
      | '.' :: r4 =>
          let (fs, _) := digitSpan r4
          if fs.isEmpty then none else some fs
      | _ => none
    match frac with
    | some fs => pure ((digitsNat ds : ℚ) + (digitsNat fs : ℚ) / (10 : ℚ) ^ fs.length)
    | none => pure (digitsNat ds : ℚ)

/-- Line 401: `"tips"\s*:\s*"` — on a match, the suffix of the text that
starts at the opening quote (Python's `match.end() - 1`). -/
def tipsTryAt (cs : List Char) : Option (List Char) := do
  let r ← stripLit "\"tips\"".data cs
  let r2 ← afterColon r
  match r2 with
  | '\x22' :: _ => some r2
  | _ => none

/-- Lines 414-418: the run of consecutive backslashes ending at index `p`
of `tl`, scanning downward (never past index 0, which holds the opening
quote — mirroring the `check_pos >= quote_start` bound with `tl` rooted at
the quote). -/
def countBack (tl : List Char) (p : Nat) : Nat :=
  if tl.get? p = some '\x5c' then
    match p with
    | 0 => 1
    | p' + 1 => countBack tl p' + 1
  else 0

/-- The loop body's closing test (lines 412-420): the character at `p` is
a quote and the backslash run before it has even length. -/
def scanHit (tl : List Char) (p : Nat) : Bool :=
  tl.get? p == some '\x22' && countBack tl (p - 1) % 2 == 0

/-- One iteration budget per remaining position: the loop of lines
411-433 runs `current_pos` from `p` to the end of the text. -/
def scanCloseF : Nat → List Char → Nat → Option Nat
  | 0, _, _ => none
  | fuel + 1, tl, p =>
      if p < tl.length then
        if scanHit tl p then some p
        else scanCloseF fuel tl (p + 1)
      else none

/-- Lines 411-433's scanning loop: from position `p`, the first index
holding a quote preceded by an even run of backslashes, if any
(`tl.length + 1 - p` iterations always reach the end of the text). -/
def scanClose (tl : List Char) (p : Nat) : Option Nat :=
  scanCloseF (tl.length + 1 - p) tl p

/-- Line 431's chain
`.replace('\\n','\n').replace('\\"','"').replace('\\\\','\\').replace('\\t','\t')`,
in source order. -/
def manualUnescape (raw : String) : String :=
  (((raw.replace "\\n" "\n").replace "\\\"" "\"").replace "\\\\" "\\").replace "\\t" "\t"

/-- `_manual_extraction` (lines 388-440): regex probe for the score
(default `50`, *not* clamped); quote-aware scan for the tips — the raw
slice up to the scanner's closing quote, unescaped by `json.loads` on the
re-quoted slice with `manualUnescape` as fallback, or the whole remainder
when no closing quote exists. -/
def manualExtraction (text : String) : AnalysisResult :=
  let cs := text.data
  let match_score : ℚ := match reFirst scoreTryAt cs with
    | some q => q
    | none => 50
  let tips : String :=
    match reFirst tipsTryAt cs with
    | none => "No tips extracted."
    | some tl =>
        match scanClose tl 1 with
        | some i =>
            let raw := sliceL tl 1 i
            match jsonLoads (String.mk ('\x22' :: (raw ++ ['\x22']))) with
            | some (.str u) => u
            | _ => manualUnescape (String.mk raw)
        | none => String.mk (tl.drop 1)
  ⟨match_score, tips⟩

/-- Lines 308-325: strip, then — only when a three-backtick marker occurs
anywhere — remove a leading fence through its first newline (or just the
three backticks when the fence line never ends) and a trailing marker,
with the inner `lstrip`/`rstrip` of those branches. -/
def analysisDropHead (cleaned : List Char) : List Char :=
  if hasPre ['\x60', '\x60', '\x60'] cleaned then
    match idxOf? '\n' cleaned with
    | some i => pyLStripL (cleaned.drop (i + 1))
    | none => pyLStripL (cleaned.drop 3)
  else cleaned

def analysisDropTail (c1 : List Char) : List Char :=
  if hasSuf ['\x60', '\x60', '\x60'] c1 then pyRStripL (dropLastL c1 3) else c1

def analysisCleanL (cs : List Char) : List Char :=
  if containsL ['\x60', '\x60', '\x60'] (pyStripL cs) then
    analysisDropTail (analysisDropHead (pyStripL cs))
  else pyStripL cs

/-- The same at `String` level, as `_parse_analysis_response` consumes it. -/
def analysisClean (s : String) : String := String.mk (analysisCleanL s.data)

/-- Steps 4 and 5 of `_parse_analysis_response` (lines 349-370), reached
only when no candidate span exists: manual extraction of the whole
cleaned text when it mentions either JSON key; else the markdown
heuristic (default `75.0`, the markdown as tips — the cleaned text when
it still holds a `#`, the raw text otherwise); else the final default
(`50.0`, the cleaned text as tips). -/
def analysisSteps45 (s cleaned : String) : AnalysisResult :=
  if containsL "\"match_score\"".data cleaned.data
      || containsL "\"tips\"".data cleaned.data then
    manualExtraction cleaned
  else if containsL "# Resume Analysis".data cleaned.data
      || containsL "## Overall Assessment".data cleaned.data
      || containsL "# Resume Analysis".data s.data then
    ⟨75, if containsL ['#'] cleaned.data then cleaned else s⟩
  else ⟨50, cleaned⟩

/-- Direct parse, then the `find('\x7b')`/`rfind('\x7d')` substring retry
whose parse failure goes to manual extraction *of that substring*; steps
4/5 (`analysisSteps45`) run only when the span candidate is absent or
inverted. -/
def parseAnalysisResponseE (s : String) : Except PyExc AnalysisResult :=
  match jsonLoads (analysisClean s) with
  | some data => validateAndReturnE data
  | none =>
      match idxOf? '\x7b' (analysisClean s).data, ridxOf? '\x7d' (analysisClean s).data with
      | some si, some ei =>
          if si < ei then
            match jsonLoads (String.mk (sliceL (analysisClean s).data si (ei + 1))) with
            | some data => validateAndReturnE data
            | none =>
                Except.ok (manualExtraction (String.mk (sliceL (analysisClean s).data si (ei + 1))))
          else Except.ok (analysisSteps45 s (analysisClean s))
      | _, _ => Except.ok (analysisSteps45 s (analysisClean s))

/-- `_parse_analysis_response` including its `except Exception` clause
(lines 372-377): any internal exception becomes a `0.0` record whose tips
carry the error text. -/
def parseAnalysisResponse (s : String) : AnalysisResult :=
  match parseAnalysisResponseE s with
  | .ok r => r
  | .error e => ⟨0, "Error parsing analysis: " ++ pyExcMsg e⟩

/-! ## Facts about the clamp -/

theorem pyClamp_nonneg (q : ℚ) : 0 ≤ pyClamp q := le_max_left 0 _

theorem pyClamp_le_100 (q : ℚ) : pyClamp q ≤ 100 :=
  max_le (by norm_num) (min_le_left _ _)

theorem pyClamp_of_mem (q : ℚ) (h0 : 0 ≤ q) (h1 : q ≤ 100) : pyClamp q = q := by
  unfold pyClamp
  rw [min_eq_right h1, max_eq_right h0]

/-! ## Claim C1 -/

/-- C1, counterexample: on well-formed JSON whose `confidence_score` is
`null`, `_parse_gemini_response` raises `TypeError` (from `float(None)` at
line 271, absent from the `except` clause at line 298) instead of
returning a record. -/
theorem C1_counterexample :
    parseGeminiResponse "\x7b\"is_authentic\": true, \"confidence_score\": null\x7d"
      = .error .typeError := rfl

/-- C1, amended: `_parse_gemini_response` returns a record without raising
whenever direct JSON parsing of the fence-stripped text fails (the
fallback tier is total); and `_parse_analysis_response` never lets an
internal exception escape — an error inside its `try` body becomes the
`0.0`-score record with the error text as tips.  But a *successful* direct
parse can raise (`TypeError`/`AttributeError`) in the gemini parser, as
the counterexample shows. -/
theorem C1_amended :
    (∀ s, jsonLoads (geminiFenceStrip s) = none →
      parseGeminiResponse s = .ok (geminiFallback s))
    ∧ (∀ s e, parseAnalysisResponseE s = .error e →
      parseAnalysisResponse s = ⟨0, "Error parsing analysis: " ++ pyExcMsg e⟩) := by
  constructor
  · intro s h
    simp only [parseGeminiResponse, geminiDirect, h, geminiCatches, if_true]
  · intro s e h
    simp only [parseAnalysisResponse, h]

/-- C1, witness for the amended theorem at concrete inputs. -/
theorem C1_witness :
    parseGeminiResponse "looks legit to me" = .ok (geminiFallback "looks legit to me")
    ∧ parseAnalysisResponse "\x7b\"match_score\": null\x7d"
        = ⟨0, "Error parsing analysis: " ++ pyExcMsg .typeError⟩ :=
  ⟨C1_amended.1 "looks legit to me" rfl, C1_amended.2 _ .typeError rfl⟩

/-! ## Structure of successful tiers -/

/-- Anatomy of a successful direct parse in the gemini service: the
fence-stripped text parsed to a dict, `float` of the score succeeded, and
the record is built field by field from that dict. -/
theorem geminiDirect_ok (s : String) (r : GeminiResult) (h : geminiDirect s = .ok r) :
    ∃ ms q, jsonLoads (geminiFenceStrip s) = some (.obj ms)
      ∧ pyFloat (dictGetD ms "confidence_score" (.num 0)) = .ok q
      ∧ r = ⟨pyBool (dictGetD ms "is_authentic" (.bool false)), pyClamp q,
             pyStr (dictGetD ms "evidence" (.str "No evidence provided")),
             normalizeExtracted (dictGetD ms "extracted_data" (.obj []))⟩ := by
  unfold geminiDirect at h
  split at h
  · exact absurd h (by simp)
  · rename_i ms hms
    split at h
    · exact absurd h (by simp)
    · rename_i q hq
      refine ⟨ms, q, hms, hq, ?_⟩
      simp only [Except.ok.injEq] at h
      exact h.symm
  · exact absurd h (by simp)

/-- The fallback tier's score: either the default `50` or a clamped regex
capture. -/
theorem geminiFallback_conf (s : String) :
    (geminiFallback s).confidence_score = 50
    ∨ ∃ q, (geminiFallback s).confidence_score = pyClamp q := by
  unfold geminiFallback
  cases h : reFirst confTryAt s.data with
  | none => left; simp [h]
  | some q => right; exact ⟨q, by simp [h]⟩

/-- Anatomy of `_validate_and_return`: it only succeeds on a dict whose
score `float`s, and then clamps that score. -/
theorem validateAndReturnE_ok (d : JVal) (r : AnalysisResult)
    (h : validateAndReturnE d = .ok r) :
    ∃ ms q, d = .obj ms
      ∧ pyFloat (dictGetD ms "match_score" (.num 50)) = .ok q
      ∧ r = ⟨pyClamp q, pyStr (dictGetD ms "tips" (.str "No tips generated."))⟩ := by
  unfold validateAndReturnE at h
  split at h
  · rename_i ms
    split at h
    · exact absurd h (by simp)
    · rename_i q hq
      simp only [Except.ok.injEq] at h
      exact ⟨ms, q, rfl, hq, h.symm⟩
  · exact absurd h (by simp)

/-! ## Claim C3 -/

/-- C3, counterexample: a value found for `match_score` in the manual
tier is *not* clamped — the malformed input with `"match_score": 140`
yields a record whose score is `140`, outside `[0, 100]`. -/
theorem C3_counterexample :
    parseAnalysisResponse "\x7b\"match_score\": 140, \"tips\": \"x" = ⟨140, "x"⟩
    ∧ ¬ (140 : ℚ) ≤ 100 := ⟨by decide, by decide⟩

/-- C3, amended: the clamp into `[0, 100]` holds on every record
`_parse_gemini_response` can return (both its tiers clamp, or default to
`50`), and on every record `_validate_and_return` produces — which covers
the direct-parse and substring tiers of the résumé-critique parser.  The
manual-extraction tier of the résumé-critique parser does not clamp, as
the counterexample shows. -/
theorem C3_amended :
    (∀ s r, parseGeminiResponse s = .ok r →
        0 ≤ r.confidence_score ∧ r.confidence_score ≤ 100)
    ∧ (∀ d r, validateAndReturnE d = .ok r →
        0 ≤ r.match_score ∧ r.match_score ≤ 100) := by
  constructor
  · intro s r h
    unfold parseGeminiResponse at h
    cases hd : geminiDirect s with
    | ok g =>
        rw [hd] at h
        simp only [Except.ok.injEq] at h
        obtain ⟨ms, q, _, _, hr⟩ := geminiDirect_ok s g hd
        subst h hr
        exact ⟨pyClamp_nonneg q, pyClamp_le_100 q⟩
    | error e =>
        rw [hd] at h
        by_cases hc : geminiCatches e
        · simp only [hc, if_true] at h
          simp only [Except.ok.injEq] at h
          subst h
          rcases geminiFallback_conf s with h50 | ⟨q, hq⟩
          · rw [h50]; norm_num
          · rw [hq]; exact ⟨pyClamp_nonneg q, pyClamp_le_100 q⟩
        · simp [hc] at h
  · intro d r h
    obtain ⟨ms, q, _, _, hr⟩ := validateAndReturnE_ok d r h
    subst hr
    exact ⟨pyClamp_nonneg q, pyClamp_le_100 q⟩

/-- C3, witness for the amended theorem at concrete inputs. -/
theorem C3_witness :
    (0 ≤ (⟨true, 100, "ok", defaultExtractedData⟩ : GeminiResult).confidence_score
      ∧ (⟨true, 100, "ok", defaultExtractedData⟩ : GeminiResult).confidence_score ≤ 100)
    ∧ (0 ≤ (⟨88, "good"⟩ : AnalysisResult).match_score
      ∧ (⟨88, "good"⟩ : AnalysisResult).match_score ≤ 100) :=
  ⟨C3_amended.1
      "\x7b\"is_authentic\": true, \"confidence_score\": 140, \"evidence\": \"ok\"\x7d"
      ⟨true, 100, "ok", defaultExtractedData⟩ rfl,
   C3_amended.2 (.obj [("match_score", .num 88), ("tips", .str "good")])
      ⟨88, "good"⟩ rfl⟩

/-! ## Claim C7 -/

/-- C7, counterexample: a successful direct parse that merely lacks the
`confidence_score` key defaults it to `0.0` (line 271's
`data.get("confidence_score", 0.0)`), not to the claimed `50`. -/
theorem C7_counterexample :
    parseGeminiResponse "\x7b\"is_authentic\": true\x7d"
      = .ok ⟨true, 0, "No evidence provided", defaultExtractedData⟩
    ∧ (0 : ℚ) ≠ 50 := ⟨rfl, by decide⟩

/-- C7, amended: the `50` (\"uncertain\") default is used when the résumé
parser's dict lacks the key, when its manual tier's regex finds nothing,
and when the gemini *fallback* tier's regex finds nothing; but a gemini
direct parse lacking the key defaults to `0`, as the counterexample
shows. -/
theorem C7_amended :
    (∀ ms, lookupKey ms "match_score" = none →
        validateAndReturnE (.obj ms)
          = .ok ⟨50, pyStr (dictGetD ms "tips" (.str "No tips generated."))⟩)
    ∧ (∀ t, reFirst scoreTryAt t.data = none → (manualExtraction t).match_score = 50)
    ∧ (∀ s, reFirst confTryAt s.data = none → (geminiFallback s).confidence_score = 50)
    ∧ (∀ s ms r, jsonLoads (geminiFenceStrip s) = some (.obj ms) →
        lookupKey ms "confidence_score" = none →
        geminiDirect s = .ok r → r.confidence_score = 0) := by
  have h50 : pyClamp 50 = 50 := by decide
  refine ⟨?_, ?_, ?_, ?_⟩
  · intro ms h
    simp only [validateAndReturnE, dictGetD, h, pyFloat, h50]
  · intro t h
    simp only [manualExtraction, h]
  · intro s h
    simp only [geminiFallback, h]
  · intro s ms r hjl hlk h
    obtain ⟨ms', q, hjl', hq, hr⟩ := geminiDirect_ok s r h
    rw [hjl] at hjl'
    simp only [Option.some.injEq, JVal.obj.injEq] at hjl'
    subst hjl'
    rw [dictGetD, hlk] at hq
    simp only [pyFloat, Except.ok.injEq] at hq
    subst hq hr
    show pyClamp 0 = 0
    decide

/-- C7, witness for the amended theorem at concrete inputs. -/
theorem C7_witness :
    validateAndReturnE (.obj [("tips", .str "t")]) = .ok ⟨50, "t"⟩
    ∧ (manualExtraction "no score").match_score = 50
    ∧ (geminiFallback "no score").confidence_score = 50
    ∧ (⟨true, 0, "No evidence provided", defaultExtractedData⟩ : GeminiResult).confidence_score
        = 0 :=
  ⟨C7_amended.1 [("tips", .str "t")] rfl,
   C7_amended.2.1 "no score" rfl,
   C7_amended.2.2.1 "no score" rfl,
   C7_amended.2.2.2 "\x7b\"is_authentic\": true\x7d" [("is_authentic", .bool true)] _ rfl rfl rfl⟩

/-! ## Claim C9 -/

/-- Every normalisation result carries exactly the three expected keys. -/
theorem normalizeExtracted_shape (v : JVal) :
    ∃ c l i, normalizeExtracted v
      = .obj [("company", c), ("location", l), ("industry", i)] := by
  unfold normalizeExtracted
  cases v with
  | obj ms => exact ⟨_, _, _, rfl⟩
  | null => exact ⟨.null, .null, .null, rfl⟩
  | bool b => exact ⟨.null, .null, .null, rfl⟩
  | num q => exact ⟨.null, .null, .null, rfl⟩
  | str s => exact ⟨.null, .null, .null, rfl⟩
  | arr es => exact ⟨.null, .null, .null, rfl⟩

/-- C9: on every return path (either tier), the gemini record's
`extracted_data` is a dict with exactly the keys `company`, `location`,
`industry` — never `None` and never partial.  (The other fields, and both
fields of the résumé-critique record, are total by the record types of
`GeminiResult`/`AnalysisResult`, built on every return.) -/
theorem C9_complete (s : String) (r : GeminiResult)
    (h : parseGeminiResponse s = .ok r) :
    ∃ c l i, r.extracted_data
      = .obj [("company", c), ("location", l), ("industry", i)] := by
  unfold parseGeminiResponse at h
  cases hd : geminiDirect s with
  | ok g =>
      rw [hd] at h
      simp only [Except.ok.injEq] at h
      obtain ⟨ms, q, _, _, hr⟩ := geminiDirect_ok s g hd
      subst h hr
      exact normalizeExtracted_shape _
  | error e =>
      rw [hd] at h
      by_cases hc : geminiCatches e
      · simp only [hc, if_true, Except.ok.injEq] at h
        subst h
        unfold geminiFallback
        exact ⟨_, _, _, rfl⟩
      · simp [hc] at h

/-- C9, witness at a concrete input. -/
theorem C9_witness :
    ∃ c l i, (⟨false, 0, "No evidence provided", defaultExtractedData⟩
        : GeminiResult).extracted_data
      = .obj [("company", c), ("location", l), ("industry", i)] :=
  C9_complete "\x7b\x7d" ⟨false, 0, "No evidence provided", defaultExtractedData⟩ rfl

/-! ## Claim C6 -/

/-- C6, counterexample: the sentinel comparison is case-*sensitive* —
`"Null"` is not in `[None, "null", ""]`, so it is kept verbatim where the
claim's case-insensitive reading would normalize it to absent. -/
theorem C6_counterexample :
    ∃ r, parseGeminiResponse
        "\x7b\"extracted_data\": \x7b\"company\": \"Null\", \"location\": null, \"industry\": \"x\"\x7d\x7d"
        = .ok r
      ∧ r.extracted_data = .obj [("company", .str "Null"), ("location", .null),
          ("industry", .str "x")]
      ∧ JVal.str "Null" ≠ JVal.null :=
  ⟨⟨false, 0, "No evidence provided",
      .obj [("company", .str "Null"), ("location", .null), ("industry", .str "x")]⟩,
   rfl, rfl, fun h => JVal.noConfusion h⟩

/-- C6, amended: in the direct-parse tier, each optional field of a parsed
`extracted_data` dict normalizes to absent exactly when it equals `None`,
`"null"` or `""` under *case-sensitive* comparison, and every other value
is kept verbatim.  (First conjunct: the sentinel set, exactly; second: the
record built from a successful direct parse applies it field-wise.) -/
theorem C6_amended :
    (∀ v, isNullSentinel v = true ↔ (v = .null ∨ v = .str "null" ∨ v = .str ""))
    ∧ (∀ s ms ed r, jsonLoads (geminiFenceStrip s) = some (.obj ms) →
        lookupKey ms "extracted_data" = some (.obj ed) →
        geminiDirect s = .ok r →
        r.extracted_data = .obj [
          ("company", if isNullSentinel (dictGetD ed "company" .null) then JVal.null
            else dictGetD ed "company" .null),
          ("location", if isNullSentinel (dictGetD ed "location" .null) then JVal.null
            else dictGetD ed "location" .null),
          ("industry", if isNullSentinel (dictGetD ed "industry" .null) then JVal.null
            else dictGetD ed "industry" .null)]) := by
  constructor
  · intro v
    cases v with
    | null => simp [isNullSentinel]
    | bool b => simp [isNullSentinel]
    | num q => simp [isNullSentinel]
    | str s => simp [isNullSentinel, or_comm]
    | arr es => simp [isNullSentinel]
    | obj ms => simp [isNullSentinel]
  · intro s ms ed r hjl hlk h
    obtain ⟨ms', q, hjl', hq, hr⟩ := geminiDirect_ok s r h
    rw [hjl] at hjl'
    simp only [Option.some.injEq, JVal.obj.injEq] at hjl'
    subst hjl'
    subst hr
    show normalizeExtracted (dictGetD ms "extracted_data" (.obj [])) = _
    rw [dictGetD, hlk]
    rfl

/-- C6, witness for the amended theorem at a concrete input. -/
theorem C6_witness :
    isNullSentinel (.str "null") = true
    ∧ (⟨false, 0, "No evidence provided",
        .obj [("company", .str "Acme"), ("location", .null), ("industry", .null)]⟩
          : GeminiResult).extracted_data
      = .obj [("company", .str "Acme"), ("location", .null), ("industry", .null)] :=
  ⟨(C6_amended.1 (.str "null")).mpr (Or.inr (Or.inl rfl)),
   (C6_amended.2
      "\x7b\"extracted_data\": \x7b\"company\": \"Acme\", \"location\": \"null\"\x7d\x7d"
      [("extracted_data", .obj [("company", .str "Acme"), ("location", .str "null")])]
      [("company", .str "Acme"), ("location", .str "null")]
      ⟨false, 0, "No evidence provided",
        .obj [("company", .str "Acme"), ("location", .null), ("industry", .null)]⟩
      rfl rfl rfl).trans (by rfl)⟩

/-! ## List toolbox for the fence and boundary lemmas -/

theorem hasPre_of_append (p q cs : List Char) (h : hasPre (p ++ q) cs = true) :
    hasPre p cs = true := by
  induction p generalizing cs with
  | nil => rfl
  | cons a p ih =>
      cases cs with
      | nil => simp [hasPre] at h
      | cons c cs =>
          simp only [List.cons_append, hasPre, Bool.and_eq_true] at h ⊢
          exact ⟨h.1, ih cs h.2⟩

theorem pyLStripL_cons {c : Char} (t : List Char) (h : isPyWs c = false) :
    pyLStripL (c :: t) = c :: t := by
  simp [pyLStripL, List.dropWhile_cons, h]

theorem head_not_ws_of_lstrip {c : Char} {t : List Char}
    (h : pyLStripL (c :: t) = c :: t) : isPyWs c = false := by
  rw [pyLStripL] at h
  have := (List.dropWhile_eq_self_iff).mp h (by simp)
  simpa using this

theorem pyRStripL_concat {b : Char} (l : List Char) (h : isPyWs b = false) :
    pyRStripL (l ++ [b]) = l ++ [b] := by
  simp [pyRStripL, List.reverse_append, List.dropWhile_cons, h]

theorem last_not_ws_of_rstrip {b : Char} {l : List Char}
    (h : pyRStripL (l ++ [b]) = l ++ [b]) : isPyWs b = false := by
  rw [pyRStripL] at h
  have h2 : List.dropWhile isPyWs ((l ++ [b]).reverse) = (l ++ [b]).reverse := by
    have := congrArg List.reverse h
    rwa [List.reverse_reverse] at this
  rw [List.reverse_append] at h2
  have := (List.dropWhile_eq_self_iff).mp h2 (by simp)
  simpa using this

theorem pyStripL_bounds {a b : Char} (l : List Char)
    (ha : isPyWs a = false) (hb : isPyWs b = false) :
    pyStripL (a :: (l ++ [b])) = a :: (l ++ [b]) := by
  simp [pyStripL, List.dropWhile_cons, ha, hb, List.reverse_append]

theorem idxOf?_append {c : Char} (l r : List Char) (h : c ∉ l) :
    idxOf? c (l ++ r) = (idxOf? c r).map (· + l.length) := by
  induction l with
  | nil => cases h' : idxOf? c r <;> simp [h']
  | cons a l ih =>
      have hca : ¬c = a := by
        simp only [List.mem_cons, not_or] at h
        exact h.1
      have hne : (a == c) = false := by
        simp only [beq_eq_false_iff_ne, Ne]
        exact fun e => hca e.symm
      have hm : c ∉ l := by
        simp only [List.mem_cons, not_or] at h
        exact h.2
      simp only [List.cons_append, idxOf?, hne, Bool.false_eq_true, if_false, List.append_eq]
      rw [ih hm]
      cases h' : idxOf? c r with
      | none => simp
      | some i =>
          simp only [Option.map_some', List.length_cons, Option.some.injEq]
          omega

theorem dropLastL_append (l m : List Char) : dropLastL (l ++ m) m.length = l := by
  simp [dropLastL, List.length_append, List.take_left']



/-! ## Claim C8 -/

theorem pyLStripL_append_left (body X : List Char) (hne : body ≠ [])
    (h : pyLStripL body = body) : pyLStripL (body ++ X) = body ++ X := by
  cases body with
  | nil => exact absurd rfl hne
  | cons a t =>
      have ha := head_not_ws_of_lstrip h
      simp [pyLStripL, List.cons_append, List.dropWhile_cons, ha]

theorem pyRStripL_append_ws (body : List Char) (w : Char) (hw : isPyWs w = true)
    (h : pyRStripL body = body) : pyRStripL (body ++ [w]) = body := by
  rw [pyRStripL, List.reverse_append]
  simp only [List.reverse_cons, List.reverse_nil, List.nil_append, List.singleton_append,
    List.dropWhile_cons, hw, if_true]
  exact h

/-- C8, counterexample: the gemini stripper removes a language tag only
for the fixed spelling `json` — with tag `python` just the backticks go,
and the tag (which the claim says goes with the marker) survives into the
parsed text. -/
theorem C8_counterexample :
    geminiFenceStrip "\x60\x60\x60python\n\x7b\x7d\n\x60\x60\x60" = "python\n\x7b\x7d"
    ∧ ("python\n\x7b\x7d" : String) ≠ "\x7b\x7d" := ⟨rfl, by decide⟩

/-- Gemini fence removal for the literal `json` tag, at list level. -/
theorem geminiFenceStripL_json (body : List Char) (hstrip : pyStripL body = body) :
    geminiFenceStripL (['\x60', '\x60', '\x60', 'j', 's', 'o', 'n']
        ++ (body ++ ['\x60', '\x60', '\x60'])) = body := by
  have hb : pyStripL (['\x60', '\x60', '\x60', 'j', 's', 'o', 'n']
      ++ (body ++ ['\x60', '\x60', '\x60']))
      = ['\x60', '\x60', '\x60', 'j', 's', 'o', 'n'] ++ (body ++ ['\x60', '\x60', '\x60']) := by
    rw [show (['\x60', '\x60', '\x60', 'j', 's', 'o', 'n'] : List Char)
        ++ (body ++ ['\x60', '\x60', '\x60'])
        = '\x60' :: ((['\x60', '\x60', 'j', 's', 'o', 'n'] ++ body ++ ['\x60', '\x60'])
            ++ ['\x60']) from by simp]
    exact pyStripL_bounds _ (by decide) (by decide)
  have hhead : geminiDropHead (['\x60', '\x60', '\x60', 'j', 's', 'o', 'n']
      ++ (body ++ ['\x60', '\x60', '\x60'])) = body ++ ['\x60', '\x60', '\x60'] := by
    rw [geminiDropHead, if_pos (by simp [hasPre])]
    simp [List.drop]
  have htail : geminiDropTail (body ++ ['\x60', '\x60', '\x60']) = body := by
    rw [geminiDropTail, if_pos (by simp [hasSuf, hasPre, List.reverse_append])]
    simpa using dropLastL_append body ['\x60', '\x60', '\x60']
  rw [geminiFenceStripL, hb, hhead, htail, hstrip]

/-- Analysis fence removal for an arbitrary newline-terminated tag, at
list level. -/
theorem analysisCleanL_fence (tag body : List Char) (htag : '\n' ∉ tag)
    (hne : body ≠ []) (hl : pyLStripL body = body) (hr : pyRStripL body = body) :
    analysisCleanL (('\x60' :: '\x60' :: '\x60' :: tag)
        ++ '\n' :: (body ++ '\n' :: ['\x60', '\x60', '\x60'])) = body := by
  have hb : pyStripL (('\x60' :: '\x60' :: '\x60' :: tag)
      ++ '\n' :: (body ++ '\n' :: ['\x60', '\x60', '\x60']))
      = ('\x60' :: '\x60' :: '\x60' :: tag)
        ++ '\n' :: (body ++ '\n' :: ['\x60', '\x60', '\x60']) := by
    rw [show (('\x60' :: '\x60' :: '\x60' :: tag) : List Char)
        ++ '\n' :: (body ++ '\n' :: ['\x60', '\x60', '\x60'])
        = '\x60' :: (('\x60' :: '\x60' :: tag ++ '\n' :: (body ++ ['\n', '\x60', '\x60']))
            ++ ['\x60']) from by simp]
    exact pyStripL_bounds _ (by decide) (by decide)
  rw [analysisCleanL, hb, if_pos (by simp [containsL, hasPre])]
  have hidx : idxOf? '\n' (('\x60' :: '\x60' :: '\x60' :: tag)
      ++ '\n' :: (body ++ '\n' :: ['\x60', '\x60', '\x60'])) = some (3 + tag.length) := by
    have hnm : '\n' ∉ ('\x60' :: '\x60' :: '\x60' :: tag) := by
      simp only [List.mem_cons, not_or]
      exact ⟨by decide, by decide, by decide, htag⟩
    rw [idxOf?_append _ _ hnm]
    simp [idxOf?]
    omega
  have hdrop : (('\x60' :: '\x60' :: '\x60' :: tag)
      ++ '\n' :: (body ++ '\n' :: ['\x60', '\x60', '\x60'])).drop (3 + tag.length + 1)
      = body ++ '\n' :: ['\x60', '\x60', '\x60'] := by
    rw [show (('\x60' :: '\x60' :: '\x60' :: tag) : List Char)
        ++ '\n' :: (body ++ '\n' :: ['\x60', '\x60', '\x60'])
        = (('\x60' :: '\x60' :: '\x60' :: tag) ++ ['\n'])
          ++ (body ++ '\n' :: ['\x60', '\x60', '\x60']) from by simp]
    rw [show 3 + tag.length + 1
        = (('\x60' :: '\x60' :: '\x60' :: tag) ++ ['\n']).length from by
      simp [List.length_append]; omega]
    exact List.drop_left _ _
  have hhead : analysisDropHead (('\x60' :: '\x60' :: '\x60' :: tag)
      ++ '\n' :: (body ++ '\n' :: ['\x60', '\x60', '\x60']))
      = body ++ '\n' :: ['\x60', '\x60', '\x60'] := by
    rw [analysisDropHead, if_pos (by simp [hasPre]), hidx]
    show pyLStripL (List.drop (3 + tag.length + 1)
      (('\x60' :: '\x60' :: '\x60' :: tag)
        ++ '\n' :: (body ++ '\n' :: ['\x60', '\x60', '\x60']))) = _
    rw [hdrop]
    exact pyLStripL_append_left body _ hne hl
  rw [hhead]
  rw [analysisDropTail, if_pos (by simp [hasSuf, hasPre, List.reverse_append])]
  have hdl : dropLastL (body ++ '\n' :: ['\x60', '\x60', '\x60']) 3 = body ++ ['\n'] := by
    rw [show body ++ '\n' :: ['\x60', '\x60', '\x60']
        = (body ++ ['\n']) ++ ['\x60', '\x60', '\x60'] from by simp]
    simpa using dropLastL_append (body ++ ['\n']) ['\x60', '\x60', '\x60']
  rw [hdl]
  exact pyRStripL_append_ws body '\n' (by decide) hr

/-- C8, amended, in four parts.  (1) The gemini stripper removes one
leading marker together with its tag only when the tag is the literal
`json` (any other tag survives, per the counterexample), plus one
trailing marker; the interior `body` — nested backticks included — is
untouched.  (2) The analysis stripper removes one leading marker with
*any* newline-terminated tag line, and one trailing marker.  (3)/(4) An
already-whitespace-stripped input with no leading/trailing marker
(gemini), or no marker anywhere (analysis), passes through unchanged. -/
theorem C8_amended :
    (∀ body : List Char, pyStripL body = body →
      geminiFenceStrip (String.mk (['\x60', '\x60', '\x60', 'j', 's', 'o', 'n']
          ++ (body ++ ['\x60', '\x60', '\x60'])))
        = String.mk body)
    ∧ (∀ tag body : List Char, '\n' ∉ tag → body ≠ [] →
        pyLStripL body = body → pyRStripL body = body →
      analysisClean (String.mk (('\x60' :: '\x60' :: '\x60' :: tag)
          ++ '\n' :: (body ++ '\n' :: ['\x60', '\x60', '\x60'])))
        = String.mk body)
    ∧ (∀ s : String, pyStripL s.data = s.data →
        hasPre ['\x60', '\x60', '\x60'] s.data = false →
        hasSuf ['\x60', '\x60', '\x60'] s.data = false →
        geminiFenceStrip s = s)
    ∧ (∀ s : String, pyStripL s.data = s.data →
        containsL ['\x60', '\x60', '\x60'] s.data = false →
        analysisClean s = s) := by
  refine ⟨?_, ?_, ?_, ?_⟩
  · intro body hstrip
    exact congrArg String.mk (geminiFenceStripL_json body hstrip)
  · intro tag body htag hne hl hr
    exact congrArg String.mk (analysisCleanL_fence tag body htag hne hl hr)
  · intro s hstrip hpre hsuf
    have h7 : hasPre ['\x60', '\x60', '\x60', 'j', 's', 'o', 'n'] s.data = false := by
      by_cases h : hasPre ['\x60', '\x60', '\x60', 'j', 's', 'o', 'n'] s.data = true
      · exact absurd (hasPre_of_append ['\x60', '\x60', '\x60'] ['j', 's', 'o', 'n'] s.data h)
          (by simp [hpre])
      · simpa using h
    show String.mk (geminiFenceStripL s.data) = s
    rw [geminiFenceStripL, hstrip, geminiDropHead, h7, hpre]
    simp only [Bool.false_eq_true, if_false]
    rw [geminiDropTail, hsuf]
    simp only [Bool.false_eq_true, if_false]
    rw [hstrip]
  · intro s hstrip hcont
    show String.mk (analysisCleanL s.data) = s
    rw [analysisCleanL, hstrip, hcont]
    simp only [Bool.false_eq_true, if_false]

/-- C8, witness for the amended theorem at concrete inputs. -/
theorem C8_witness :
    geminiFenceStrip "\x60\x60\x60json\x7b\"a\": 1\x7d\x60\x60\x60" = "\x7b\"a\": 1\x7d"
    ∧ analysisClean "\x60\x60\x60markdown\n# Resume Analysis\n\x60\x60\x60"
        = "# Resume Analysis"
    ∧ geminiFenceStrip "plain text" = "plain text"
    ∧ analysisClean "plain text" = "plain text" :=
  ⟨C8_amended.1 "\x7b\"a\": 1\x7d".data (by decide),
   C8_amended.2.1 "markdown".data "# Resume Analysis".data (by decide) (by decide)
     (by decide) (by decide),
   C8_amended.2.2.1 "plain text" (by decide) (by decide) (by decide),
   C8_amended.2.2.2 "plain text" (by decide) (by decide)⟩

/-! ## Claim C10 -/

/-- C10, counterexample: when the text holds a `\x7b`–`\x7d` span that fails
to parse, the code goes to manual extraction of that span and *returns* —
it never reaches the markdown heuristic.  Here the premises of the claim
all hold (direct parse fails, the only candidate span `\x7bx\x7d` does not
parse, neither key occurs, the heading is present), yet the result is the
manual tier's `⟨50, "No tips extracted."⟩`, not `75.0` with the markdown. -/
theorem C10_counterexample :
    parseAnalysisResponse "# Resume Analysis \x7bx\x7d" = ⟨50, "No tips extracted."⟩
    ∧ jsonLoads "# Resume Analysis \x7bx\x7d" = none
    ∧ jsonLoads "\x7bx\x7d" = none
    ∧ containsL "\"match_score\"".data "# Resume Analysis \x7bx\x7d".data = false
    ∧ containsL "\"tips\"".data "# Resume Analysis \x7bx\x7d".data = false
    ∧ containsL "# Resume Analysis".data "# Resume Analysis \x7bx\x7d".data = true
    ∧ (⟨50, "No tips extracted."⟩ : AnalysisResult)
        ≠ ⟨75, "# Resume Analysis \x7bx\x7d"⟩ := by
  refine ⟨by decide, rfl, rfl, by decide, by decide, by decide, by decide⟩

/-- C10, amended: the description is right once its premise also excludes
a candidate span — when direct parsing of the cleaned text fails, *no*
first-`\x7b`/last-`\x7d` span with `find < rfind` exists, and neither the
key `"match_score"` nor `"tips"` occurs, then a markdown heading gives
`match_score = 75.0` with the markdown text as tips (the cleaned text if
it still holds `#`, the raw text otherwise), and otherwise the result is
`match_score = 50.0` with the cleaned text as tips. -/
theorem C10_amended (s : String)
    (hjson : jsonLoads (analysisClean s) = none)
    (hspan : ∀ si ei, idxOf? '\x7b' (analysisClean s).data = some si →
        ridxOf? '\x7d' (analysisClean s).data = some ei → ¬ si < ei)
    (hms : containsL "\"match_score\"".data (analysisClean s).data = false)
    (htp : containsL "\"tips\"".data (analysisClean s).data = false) :
    parseAnalysisResponse s =
      if containsL "# Resume Analysis".data (analysisClean s).data
          || containsL "## Overall Assessment".data (analysisClean s).data
          || containsL "# Resume Analysis".data s.data
      then ⟨75, if containsL ['#'] (analysisClean s).data then analysisClean s else s⟩
      else ⟨50, analysisClean s⟩ := by
  have hE : parseAnalysisResponseE s = .ok (analysisSteps45 s (analysisClean s)) := by
    unfold parseAnalysisResponseE
    simp only [hjson]
    cases hsi : idxOf? '\x7b' (analysisClean s).data with
    | none => rfl
    | some si =>
        cases hei : ridxOf? '\x7d' (analysisClean s).data with
        | none => rfl
        | some ei => simp only [if_neg (hspan si ei hsi hei)]
  unfold parseAnalysisResponse
  rw [hE]
  show analysisSteps45 s (analysisClean s) = _
  unfold analysisSteps45
  rw [hms, htp]
  simp only [Bool.or_self, Bool.false_eq_true, if_false]

/-- C10, witness for the amended theorem at a concrete input. -/
theorem C10_witness :
    parseAnalysisResponse "# Resume Analysis\nplain advice"
      = ⟨75, "# Resume Analysis\nplain advice"⟩ := by
  have h := C10_amended "# Resume Analysis\nplain advice" rfl
    (fun si ei hsi hei => by
      have hn : idxOf? '\x7b' (analysisClean "# Resume Analysis\nplain advice").data = none := rfl
      rw [hn] at hsi
      exact Option.noConfusion hsi)
    (by decide) (by decide)
  exact h.trans (by decide)

/-! ## Claim C5 -/

/-- Helper for `specBraceSpan`: scan counting brace depth, skipping braces
inside quoted strings while tracking escape parity; emits the span once
depth returns to zero. -/
def braceScan : List Char → Nat → Bool → Bool → List Char → Option (List Char)
  | [], _, _, _, _ => none
  | c :: rest, depth, inStr, esc, acc =>
      if inStr then
        if esc then braceScan rest depth true false (c :: acc)
        else if c == '\x5c' then braceScan rest depth true true (c :: acc)
        else if c == '\x22' then braceScan rest depth false false (c :: acc)
        else braceScan rest depth true false (c :: acc)
      else if c == '\x22' then braceScan rest depth true false (c :: acc)
      else if c == '\x7b' then braceScan rest (depth + 1) false false (c :: acc)
      else if c == '\x7d' then
        if depth == 1 then some ((c :: acc).reverse)
        else braceScan rest (depth - 1) false false (c :: acc)
      else braceScan rest depth false false (c :: acc)

/-- Modelled from the spec: the claim's BoundaryExtractor, which the source
does not implement — "scans the text left-to-right counting `\x7b`/`\x7d`
(ignoring braces inside quoted strings, itself tracking escape parity) to
find the first complete top-level object span".  Used only as the
comparison point for C5. -/
def specBraceSpan (s : String) : Option String :=
  match s.data.dropWhile (fun c => c != '\x7b') with
  | '\x7b' :: rest => (braceScan rest 1 false false ['\x7b']).map String.mk
  | _ => none

/-- C5, counterexample: the span the code retries runs from the first
`\x7b` to the *last* `\x7d` (`find`/`rfind`, lines 336-337), not to the
first balanced close; with a stray `\x7d` in the trailing prose the two
differ, the code's span fails to parse, and the output is the manual
tier's unclamped `140` instead of the claimed brace-matched extraction
(which would parse the object and clamp to `100`). -/
theorem C5_counterexample :
    idxOf? '\x7b' "see \x7b\"match_score\": 140, \"tips\": \"ok\"\x7d bye\x7d".data = some 4
    ∧ ridxOf? '\x7d' "see \x7b\"match_score\": 140, \"tips\": \"ok\"\x7d bye\x7d".data = some 42
    ∧ String.mk (sliceL "see \x7b\"match_score\": 140, \"tips\": \"ok\"\x7d bye\x7d".data 4 43)
        = "\x7b\"match_score\": 140, \"tips\": \"ok\"\x7d bye\x7d"
    ∧ specBraceSpan "see \x7b\"match_score\": 140, \"tips\": \"ok\"\x7d bye\x7d"
        = some "\x7b\"match_score\": 140, \"tips\": \"ok\"\x7d"
    ∧ ("\x7b\"match_score\": 140, \"tips\": \"ok\"\x7d bye\x7d" : String)
        ≠ "\x7b\"match_score\": 140, \"tips\": \"ok\"\x7d"
    ∧ jsonLoads "\x7b\"match_score\": 140, \"tips\": \"ok\"\x7d bye\x7d" = none
    ∧ validateAndReturnE (.obj [("match_score", .num 140), ("tips", .str "ok")])
        = .ok ⟨100, "ok"⟩
    ∧ parseAnalysisResponse "see \x7b\"match_score\": 140, \"tips\": \"ok\"\x7d bye\x7d"
        = ⟨140, "ok"⟩
    ∧ (⟨140, "ok"⟩ : AnalysisResult) ≠ ⟨100, "ok"⟩ := by
  refine ⟨by decide, by decide, by decide, rfl, by decide, rfl, rfl, by decide, by decide⟩

/-- The first `\x7b` of prose-object-prose input sits at the end of the
prose, the last `\x7d` at the object's close, and the `find`/`rfind` slice
is exactly the object — provided the surrounding prose is brace-free. -/
theorem codeSpan_of_clean_prose (pre mid post : List Char)
    (hpre : '\x7b' ∉ pre) (hpost : '\x7d' ∉ post) :
    idxOf? '\x7b' (pre ++ ('\x7b' :: mid ++ ['\x7d']) ++ post) = some pre.length
    ∧ ridxOf? '\x7d' (pre ++ ('\x7b' :: mid ++ ['\x7d']) ++ post)
        = some (pre.length + mid.length + 1)
    ∧ sliceL (pre ++ ('\x7b' :: mid ++ ['\x7d']) ++ post)
        pre.length (pre.length + mid.length + 2) = '\x7b' :: mid ++ ['\x7d'] := by
  refine ⟨?_, ?_, ?_⟩
  · rw [List.append_assoc, idxOf?_append _ _ hpre]
    simp [idxOf?]
  · rw [ridxOf?]
    have hrev : (pre ++ ('\x7b' :: mid ++ ['\x7d']) ++ post).reverse
        = post.reverse ++ ('\x7d' :: (mid.reverse ++ ('\x7b' :: pre.reverse))) := by
      simp [List.reverse_append]
    rw [hrev, idxOf?_append _ _ (by simpa using hpost)]
    simp only [idxOf?, beq_self_eq_true, if_true, Option.map_some', Option.some.injEq]
    simp [List.length_append, List.length_reverse]
    omega
  · rw [sliceL, show pre.length + mid.length + 2
        = (pre ++ ('\x7b' :: mid ++ ['\x7d'])).length from by simp; omega]
    rw [List.take_left, List.drop_left]

/-- C5, amended: the retried span is `cleaned[find('\x7b') : rfind('\x7d')+1]`
— first `\x7b` to *last* `\x7d`, with no brace counting.  In particular, for
leading prose without `\x7b` and trailing prose without `\x7d` around one
object, that slice is exactly the embedded object, and when it parses the
record is extracted from it (via `_validate_and_return`).  With a `\x7d`
in the trailing prose the code's span differs from the brace-matched one
and falls to manual extraction, per the counterexample. -/
theorem C5_amended (pre mid post : List Char) (s : String)
    (hs : s.data = pre ++ ('\x7b' :: mid ++ ['\x7d']) ++ post)
    (hpre : '\x7b' ∉ pre) (hpost : '\x7d' ∉ post)
    (hclean : analysisClean s = s)
    (hfail : jsonLoads s = none)
    (d : JVal) (hobj : jsonLoads (String.mk ('\x7b' :: mid ++ ['\x7d'])) = some d)
    (r : AnalysisResult) (hval : validateAndReturnE d = .ok r) :
    parseAnalysisResponse s = r := by
  obtain ⟨h1, h2, h3⟩ := codeSpan_of_clean_prose pre mid post hpre hpost
  have hE : parseAnalysisResponseE s = .ok r := by
    unfold parseAnalysisResponseE
    rw [hclean, hfail]
    simp only [hs, h1, h2]
    rw [if_pos (by omega : pre.length < pre.length + mid.length + 1)]
    rw [show pre.length + mid.length + 1 + 1 = pre.length + mid.length + 2 from rfl, h3, hobj]
    exact hval
  unfold parseAnalysisResponse
  rw [hE]

/-- C5, witness for the amended theorem at a concrete input: leading and
trailing prose around one object, trailing prose brace-free, extracting
exactly the embedded object's record. -/
theorem C5_witness :
    parseAnalysisResponse "note \x7b\"match_score\": 93, \"tips\": \"fine\"\x7d trailing prose"
      = ⟨93, "fine"⟩ :=
  C5_amended "note ".data "\"match_score\": 93, \"tips\": \"fine\"".data
    " trailing prose".data
    "note \x7b\"match_score\": 93, \"tips\": \"fine\"\x7d trailing prose"
    (by decide) (by decide) (by decide) (by decide) rfl
    (.obj [("match_score", .num 93), ("tips", .str "fine")]) rfl
    ⟨93, "fine"⟩ rfl

/-! ## Claim C2 -/

/-- The closing test, spelled out: quote character, even backslash run. -/
theorem scanHit_iff (tl : List Char) (p : Nat) :
    scanHit tl p = true ↔ (tl.get? p = some '\x22' ∧ countBack tl (p - 1) % 2 = 0) := by
  simp [scanHit]

/-- The fuelled loop finds exactly the first closing position: the
smallest `i ≥ p` whose character is a quote behind an even backslash run,
with every earlier candidate quote behind an odd run. -/
theorem scanCloseF_iff : ∀ (fuel : Nat) (tl : List Char) (p : Nat),
    tl.length ≤ p + fuel → ∀ i,
      (scanCloseF fuel tl p = some i ↔
        (p ≤ i ∧ i < tl.length ∧ scanHit tl i = true
          ∧ ∀ j, p ≤ j → j < i → scanHit tl j = false)) := by
  intro fuel
  induction fuel with
  | zero =>
      intro tl p hf i
      simp only [scanCloseF]
      constructor
      · intro h; exact absurd h (by simp)
      · intro ⟨hpi, hil, _, _⟩; omega
  | succ fuel ih =>
      intro tl p hf i
      by_cases hp : p < tl.length
      · by_cases hc : scanHit tl p = true
        · simp only [scanCloseF, if_pos hp, hc, if_true]
          constructor
          · intro h
            simp only [Option.some.injEq] at h
            subst h
            exact ⟨le_refl p, hp, hc, fun j h1 h2 => absurd (lt_of_le_of_lt h1 h2) (lt_irrefl p)⟩
          · intro ⟨hpi, hil, hhit, hmin⟩
            rcases Nat.lt_or_ge p i with hlt | hge
            · exact absurd hc (by simpa using hmin p (le_refl p) hlt)
            · have : p = i := le_antisymm hpi (by omega)
              rw [this]
        · have hcf : scanHit tl p = false := by simpa using hc
          simp only [scanCloseF, if_pos hp, hcf, Bool.false_eq_true, if_false]
          rw [ih tl (p + 1) (by omega) i]
          constructor
          · intro ⟨hpi, hil, hhit, hmin⟩
            refine ⟨by omega, hil, hhit, fun j h1 h2 => ?_⟩
            rcases Nat.lt_or_ge j (p + 1) with hj1 | hj1
            · have hjp : j = p := by omega
              rw [hjp]
              exact hcf
            · exact hmin j hj1 h2
          · intro ⟨hpi, hil, hhit, hmin⟩
            have hip : p ≠ i := by
              intro e
              subst e
              rw [hhit] at hcf
              exact Bool.noConfusion hcf
            exact ⟨by omega, hil, hhit, fun j h1 h2 => hmin j (by omega) h2⟩
      · simp only [scanCloseF, if_neg hp]
        constructor
        · intro h; exact absurd h (by simp)
        · intro ⟨hpi, hil, _, _⟩; omega

/-- C2: the quote-aware `tips` scanner of `_manual_extraction`.  First
conjunct: `scanClose` from position 1 returns `i` exactly when `i` is the
first position holding a quote preceded by an even run of backslashes
(the iff of the claim, plus first-position minimality).  Second conjunct:
on the spec's escaped-quotes example the recovered value is the full
string between the opening quote and the true closing quote, unescaped —
not truncated at the embedded `\"`. -/
theorem C2_scanner :
    (∀ (tl : List Char) (i : Nat),
      scanClose tl 1 = some i ↔
        (1 ≤ i ∧ i < tl.length
          ∧ (tl.get? i = some '\x22' ∧ countBack tl (i - 1) % 2 = 0)
          ∧ ∀ j, 1 ≤ j → j < i → tl.get? j = some '\x22' →
              ¬ countBack tl (j - 1) % 2 = 0))
    ∧ manualExtraction
        "\x7b\"tips\": \"He said \\\"trust me\\\" and left\", \"match_score\": 80\x7d"
      = ⟨80, "He said \"trust me\" and left"⟩ := by
  constructor
  · intro tl i
    rw [scanClose, scanCloseF_iff (tl.length + 1 - 1) tl 1 (by omega) i]
    constructor
    · intro ⟨h1, h2, h3, h4⟩
      refine ⟨h1, h2, (scanHit_iff tl i).mp h3, fun j hj1 hj2 hq he => ?_⟩
      have ht := (scanHit_iff tl j).mpr ⟨hq, he⟩
      rw [h4 j hj1 hj2] at ht
      exact Bool.noConfusion ht
    · intro ⟨h1, h2, h3, h4⟩
      refine ⟨h1, h2, (scanHit_iff tl i).mpr h3, fun j hj1 hj2 => ?_⟩
      by_cases hs : scanHit tl j = true
      · obtain ⟨hq, he⟩ := (scanHit_iff tl j).mp hs
        exact absurd he (h4 j hj1 hj2 hq)
      · simpa using hs
  · decide

/-- C2, witness: the characterization applied to the example's quote-rooted
suffix — the scanner's answer `30` is the true closing quote (even run),
and every embedded escaped quote before it sits behind an odd run. -/
theorem C2_witness :
    1 ≤ 30
    ∧ 30 < ("\"He said \\\"trust me\\\" and left\", \"match_score\": 80\x7d".data).length
    ∧ (("\"He said \\\"trust me\\\" and left\", \"match_score\": 80\x7d".data).get? 30
          = some '\x22'
        ∧ countBack "\"He said \\\"trust me\\\" and left\", \"match_score\": 80\x7d".data
            (30 - 1) % 2 = 0)
    ∧ ∀ j, 1 ≤ j → j < 30 →
        ("\"He said \\\"trust me\\\" and left\", \"match_score\": 80\x7d".data).get? j
          = some '\x22' →
        ¬ countBack "\"He said \\\"trust me\\\" and left\", \"match_score\": 80\x7d".data
            (j - 1) % 2 = 0 :=
  (C2_scanner.1 "\"He said \\\"trust me\\\" and left\", \"match_score\": 80\x7d".data 30).mp
    (by decide)

/-! ## Claim C4: serialization and the decimal/string round trip -/

/-- Fuel does not matter once it exceeds the value. -/
theorem natDigitCharsF_eq (f m : Nat) (h : m < f) :
    natDigitCharsF f m = natDigitChars m := by
  induction m using Nat.strong_induction_on generalizing f with
  | _ m ih =>
      match f, h with
      | f + 1, h =>
          rw [natDigitChars, natDigitCharsF]
          by_cases h10 : m < 10
          · simp [natDigitCharsF, h10]
          · simp only [h10, if_false]
            rw [natDigitCharsF]
            simp only [h10, if_false]
            have hlt : m / 10 < m := Nat.div_lt_self (by omega) (by omega)
            rw [ih (m / 10) hlt f (by omega), ih (m / 10) hlt m hlt]

/-- The defining step of `natDigitChars`, fuel hidden. -/
theorem natDigitChars_step (m : Nat) :
    natDigitChars m = if m < 10 then [Char.ofNat ('0'.toNat + m)]
      else natDigitChars (m / 10) ++ [Char.ofNat ('0'.toNat + m % 10)] := by
  rw [natDigitChars, natDigitCharsF]
  by_cases h10 : m < 10
  · simp [h10]
  · simp only [h10, if_false]
    rw [natDigitCharsF_eq m (m / 10) (Nat.div_lt_self (by omega) (by omega))]

theorem digit_char_spec (k : Nat) (h : k < 10) :
    isDigitC (Char.ofNat ('0'.toNat + k)) = true
    ∧ (Char.ofNat ('0'.toNat + k)).toNat - '0'.toNat = k
    ∧ (k ≠ 0 → Char.ofNat ('0'.toNat + k) ≠ '0') := by
  interval_cases k <;> refine ⟨by decide, by decide, by decide⟩

theorem natDigitChars_ne_nil (m : Nat) : natDigitChars m ≠ [] := by
  rw [natDigitChars_step]
  by_cases h10 : m < 10 <;> simp [h10]

theorem natDigitChars_digits (m : Nat) : ∀ c ∈ natDigitChars m, isDigitC c = true := by
  induction m using Nat.strong_induction_on with
  | _ m ih =>
      rw [natDigitChars_step]
      by_cases h10 : m < 10
      · simp only [h10, if_true, List.mem_singleton]
        rintro c rfl
        exact (digit_char_spec m h10).1
      · simp only [h10, if_false, List.mem_append, List.mem_singleton]
        rintro c (hc | rfl)
        · exact ih (m / 10) (Nat.div_lt_self (by omega) (by omega)) c hc
        · exact (digit_char_spec (m % 10) (Nat.mod_lt _ (by omega))).1

theorem natDigitChars_head_ne_zero (m : Nat) (hm : 1 ≤ m) :
    ∃ d t, natDigitChars m = d :: t ∧ isDigitC d = true ∧ d ≠ '0' := by
  induction m using Nat.strong_induction_on with
  | _ m ih =>
      rw [natDigitChars_step]
      by_cases h10 : m < 10
      · exact ⟨_, [], by simp [h10], (digit_char_spec m h10).1,
          (digit_char_spec m h10).2.2 (by omega)⟩
      · obtain ⟨d, t, hdt, hd1, hd2⟩ :=
          ih (m / 10) (Nat.div_lt_self (by omega) (by omega))
            (by omega : 1 ≤ m / 10)
        exact ⟨d, t ++ [Char.ofNat ('0'.toNat + m % 10)], by simp [h10, hdt], hd1, hd2⟩

theorem digitsNat_foldl_acc (l : List Char) : ∀ acc : Nat,
    l.foldl (fun acc c => acc * 10 + (c.toNat - '0'.toNat)) acc
      = acc * 10 ^ l.length + digitsNat l := by
  induction l with
  | nil => intro acc; simp [digitsNat]
  | cons c t ih =>
      intro acc
      rw [digitsNat, List.foldl_cons, List.foldl_cons, ih, ih (0 * 10 + (c.toNat - '0'.toNat))]
      simp [List.length_cons, Nat.pow_succ]
      ring

theorem digitsNat_append (a b : List Char) :
    digitsNat (a ++ b) = digitsNat a * 10 ^ b.length + digitsNat b := by
  rw [digitsNat, List.foldl_append, digitsNat_foldl_acc b (a.foldl _ 0)]
  rfl

theorem digitsNat_replicate_zero (z : Nat) (ds : List Char) :
    digitsNat (List.replicate z '0' ++ ds) = digitsNat ds := by
  induction z with
  | zero => simp
  | succ z ih =>
      rw [List.replicate_succ, List.cons_append, digitsNat, List.foldl_cons]
      simpa [digitsNat] using ih

theorem digitsNat_natDigitChars (m : Nat) : digitsNat (natDigitChars m) = m := by
  induction m using Nat.strong_induction_on with
  | _ m ih =>
      rw [natDigitChars_step]
      by_cases h10 : m < 10
      · rw [if_pos h10]
        have hv := (digit_char_spec m h10).2.1
        simp only [digitsNat, List.foldl_cons, List.foldl_nil, Nat.zero_mul, Nat.zero_add]
        omega
      · rw [if_neg h10, digitsNat_append,
          ih (m / 10) (Nat.div_lt_self (by omega) (by omega))]
        have hv := (digit_char_spec (m % 10) (Nat.mod_lt _ (by omega))).2.1
        simp only [digitsNat, List.foldl_cons, List.foldl_nil, List.length_cons,
          List.length_nil, pow_succ, pow_zero, Nat.zero_mul, Nat.zero_add, Nat.one_mul]
        omega

/-- The remainder cannot extend a digit run. -/
def digitStop (rest : List Char) : Prop :=
  ∀ c, rest.head? = some c → isDigitC c = false

theorem digitSpan_append (ds rest : List Char) (hds : ∀ c ∈ ds, isDigitC c = true)
    (hrest : digitStop rest) : digitSpan (ds ++ rest) = (ds, rest) := by
  induction ds with
  | nil =>
      cases rest with
      | nil => rfl
      | cons r t =>
          have := hrest r rfl
          simp [digitSpan, this]
  | cons c t ih =>
      have hc : isDigitC c = true := hds c (by simp)
      simp [digitSpan, hc, ih (fun x hx => hds x (by simp [hx]))]


/-! ## Claim C4: the decimal round trip -/

theorem jNumInt_pos (d : Char) (t rest : List Char) (hd : isDigitC d = true)
    (hne : d ≠ '0') (hall : ∀ c ∈ d :: t, isDigitC c = true) (hstop : digitStop rest) :
    jNumInt ((d :: t) ++ rest) = some (digitsNat (d :: t), rest) := by
  have hspan := digitSpan_append (d :: t) rest hall hstop
  have hd0 : (d == '0') = false := by simpa using hne
  simp only [List.cons_append] at hspan
  simp [jNumInt, hd0, hd, hspan]

theorem jNumFrac_dot (fracDs rest : List Char) (hfne : fracDs ≠ [])
    (hfrac : ∀ c ∈ fracDs, isDigitC c = true) (hstop : digitStop rest) :
    jNumFrac ('.' :: (fracDs ++ rest))
      = some (digitsNat fracDs, fracDs.length, rest) := by
  have hspan := digitSpan_append fracDs rest hfrac hstop
  simp [jNumFrac, hspan, hfne]

theorem jNumExp_absent (rest : List Char)
    (hdelim : ∀ c, rest.head? = some c → c ≠ 'e' ∧ c ≠ 'E') :
    jNumExp rest = some (0, rest) := by
  cases rest with
  | nil => rfl
  | cons c r =>
      have := hdelim c rfl
      have he : (c == 'e' || c == 'E') = false := by
        simp [this.1, this.2]
      simp [jNumExp, he]

/-- A spelled decimal (digits, dot, digits) parses back to its value when
the remainder cannot extend it. -/
theorem jNum_decimal (intDs fracDs rest : List Char)
    (hshape : intDs = ['0'] ∨ (∃ d t, intDs = d :: t ∧ isDigitC d = true ∧ d ≠ '0'))
    (hint : ∀ c ∈ intDs, isDigitC c = true)
    (hfne : fracDs ≠ []) (hfrac : ∀ c ∈ fracDs, isDigitC c = true)
    (hstop : digitStop rest)
    (hdelim : ∀ c, rest.head? = some c → c ≠ 'e' ∧ c ≠ 'E') :
    jNum (intDs ++ '.' :: (fracDs ++ rest))
      = some ((digitsNat intDs : ℚ)
          + (digitsNat fracDs : ℚ) / (10 : ℚ) ^ fracDs.length, rest) := by
  have hip : jNumInt (intDs ++ '.' :: (fracDs ++ rest))
      = some (digitsNat intDs, '.' :: (fracDs ++ rest)) := by
    rcases hshape with rfl | ⟨d, t, rfl, hd1, hd2⟩
    · simp [jNumInt, digitsNat]
    · exact jNumInt_pos d t _ hd1 hd2 hint (fun c hc => by
        simp only [List.head?] at hc
        cases hc
        decide)
  rw [jNum]
  rw [hip]
  simp [jNumFrac_dot fracDs rest hfne hfrac hstop, jNumExp_absent rest hdelim]
  intro r hr
  rcases hshape with rfl | ⟨d, t, rfl, hd1, hd2⟩
  · simp at hr
  · rw [List.cons_append, List.cons.injEq] at hr
    have hd : d = '-' := hr.1
    subst hd
    exact absurd hd1 (by decide)

theorem natDigitChars_shape (m : Nat) :
    natDigitChars m = ['0']
    ∨ (∃ d t, natDigitChars m = d :: t ∧ isDigitC d = true ∧ d ≠ '0') := by
  rcases Nat.eq_zero_or_pos m with rfl | hm
  · left
    rw [natDigitChars_step]
    decide
  · right
    exact natDigitChars_head_ne_zero m hm

theorem natDigitChars_len_one (m : Nat) (h : m < 10) :
    (natDigitChars m).length = 1 := by
  rw [natDigitChars_step, if_pos h]
  rfl

theorem renderDecQ_spec (m k : Nat) :
    ∃ intDs fracDs,
      renderDecQ m k = intDs ++ '.' :: fracDs
      ∧ (intDs = ['0'] ∨ ∃ d t, intDs = d :: t ∧ isDigitC d = true ∧ d ≠ '0')
      ∧ (∀ c ∈ intDs, isDigitC c = true)
      ∧ fracDs ≠ []
      ∧ (∀ c ∈ fracDs, isDigitC c = true)
      ∧ (digitsNat intDs : ℚ) + (digitsNat fracDs : ℚ) / (10 : ℚ) ^ fracDs.length
          = (m : ℚ) / (10 : ℚ) ^ k := by
  by_cases hk : k = 0
  · subst hk
    refine ⟨natDigitChars m, ['0'], by rw [renderDecQ, if_pos rfl],
      natDigitChars_shape m, natDigitChars_digits m, by simp, by decide, ?_⟩
    rw [digitsNat_natDigitChars]
    norm_num [digitsNat]
  · have hdsne := natDigitChars_ne_nil m
    have hdsl : 1 ≤ (natDigitChars m).length := List.length_pos.mpr hdsne
    set ds := natDigitChars m with hds
    set padded := List.replicate (k + 1 - ds.length) '0' ++ ds with hpadded
    have hplen : padded.length = (k + 1 - ds.length) + ds.length := by
      simp [hpadded]
    have hplen' : k + 1 ≤ padded.length := by omega
    refine ⟨padded.take (padded.length - k), padded.drop (padded.length - k),
      by rw [renderDecQ, if_neg hk]; rfl, ?_, ?_, ?_, ?_, ?_⟩
    · by_cases hle : ds.length ≤ k
      · left
        have hz : 1 ≤ k + 1 - ds.length := by omega
        have htk : padded.length - k = 1 := by omega
        rw [htk]
        rw [hpadded]
        cases hrep : List.replicate (k + 1 - ds.length) '0' with
        | nil => exact absurd (congrArg List.length hrep) (by simp; omega)
        | cons a t =>
            have ha : a = '0' := by
              have := List.eq_of_mem_replicate (hrep ▸ List.mem_cons_self a t)
              exact this
            simp [ha]
      · right
        have hz : k + 1 - ds.length = 0 := by omega
        have hp : padded = ds := by rw [hpadded, hz]; rfl
        have hm10 : 10 ≤ m := by
          by_contra hlt
          have := natDigitChars_len_one m (by omega)
          rw [← hds] at this
          omega
        obtain ⟨d, t, hdt, hd1, hd2⟩ := natDigitChars_head_ne_zero m (by omega)
        rw [← hds] at hdt
        have htake : padded.take (padded.length - k) = d :: t.take (padded.length - k - 1) := by
          rw [hp, hdt]
          have hlen2 : k + 1 ≤ (d :: t).length := by
            rw [← hdt, ← hp]; exact hplen'
          have hx : (d :: t).length - k = ((d :: t).length - k - 1) + 1 := by omega
          conv_lhs => rw [hx]
          rw [List.take_succ_cons]
        exact ⟨d, t.take (padded.length - k - 1), htake, hd1, hd2⟩
    · intro c hc
      have hc' : c ∈ padded := List.take_subset _ _ hc
      rw [hpadded] at hc'
      rcases List.mem_append.mp hc' with h | h
      · rw [List.eq_of_mem_replicate h]
        decide
      · exact natDigitChars_digits m c h
    · intro he
      have := congrArg List.length he
      simp [List.length_drop] at this
      omega
    · intro c hc
      have hc' : c ∈ padded := List.drop_subset _ _ hc
      rw [hpadded] at hc'
      rcases List.mem_append.mp hc' with h | h
      · rw [List.eq_of_mem_replicate h]
        decide
      · exact natDigitChars_digits m c h
    · have hflen : (padded.drop (padded.length - k)).length = k := by
        simp [List.length_drop]
        omega
      have hsplit := List.take_append_drop (padded.length - k) padded
      have hval : digitsNat (padded.take (padded.length - k)) * 10 ^ k
          + digitsNat (padded.drop (padded.length - k)) = m := by
        have h1 : digitsNat padded = m := by
          rw [hpadded, digitsNat_replicate_zero, hds, digitsNat_natDigitChars]
        rw [← h1]
        conv_rhs => rw [← hsplit]
        rw [digitsNat_append, hflen]
      rw [hflen]
      have h10 : ((10 : ℚ) ^ k) ≠ 0 := by positivity
      field_simp
      push_cast [← hval]
      ring

/-- A character `json.dumps` writes verbatim inside a string literal and
the string scanner reads back unchanged: printable ASCII other than the
quote and the backslash (`dumps` escapes everything else). -/
def strOkC (c : Char) : Bool :=
  c != '\x22' && c != '\x5c' && decide (0x20 ≤ c.toNat) && decide (c.toNat ≤ 0x7e)

theorem strOkC_iff (c : Char) :
    strOkC c = true ↔ c ≠ '\x22' ∧ c ≠ '\x5c' ∧ 0x20 ≤ c.toNat ∧ c.toNat ≤ 0x7e := by
  simp [strOkC, and_assoc]

theorem jSkipWs_cons_not_ws (c : Char) (r : List Char) (h : isJWs c = false) :
    jSkipWs (c :: r) = c :: r := by
  simp [jSkipWs, h]

theorem jSkipWs_cons_ws (c : Char) (r : List Char) (h : isJWs c = true) :
    jSkipWs (c :: r) = jSkipWs r := by
  simp [jSkipWs, h]

theorem not_jws_of_digit (c : Char) (h : isDigitC c = true) : isJWs c = false := by
  by_contra hne
  have hw : isJWs c = true := by
    cases hx : isJWs c with
    | true => rfl
    | false => exact absurd hx hne
  simp only [isJWs, Bool.or_eq_true, beq_iff_eq] at hw
  rcases hw with ((h1 | h1) | h1) | h1 <;> (subst h1; exact absurd h (by decide))

/-- A run of plain characters followed by a closing quote scans back to
exactly that run. -/
theorem jStrBodyF_plain (body : List Char) : ∀ (fuel : Nat) (rest : List Char),
    body.length < fuel → (∀ c ∈ body, strOkC c = true) →
    jStrBodyF fuel (body ++ '\x22' :: rest) = some (body, rest) := by
  induction body with
  | nil =>
      intro fuel rest hf _
      obtain ⟨f, rfl⟩ : ∃ f, fuel = f + 1 := ⟨fuel - 1, by omega⟩
      simp [jStrBodyF]
  | cons c t ih =>
      intro fuel rest hf hok
      obtain ⟨f, rfl⟩ : ∃ f, fuel = f + 1 := ⟨fuel - 1, by omega⟩
      have hc := (strOkC_iff c).mp (hok c (List.mem_cons_self c t))
      obtain ⟨hq, hb, hge, hle⟩ := hc
      have ht : jStrBodyF f (t ++ '\x22' :: rest) = some (t, rest) :=
        ih f rest (by simp at hf; omega)
          (fun x hx => hok x (List.mem_cons_of_mem c hx))
      rw [List.cons_append, jStrBodyF.eq_def]
      split
      · omega
      · rename_i hfe hlist
        exact absurd hlist (by simp)
      · rename_i hfe hlist
        rw [List.cons.injEq] at hlist
        exact absurd hlist.1 hq
      · rename_i hfe hlist
        rw [List.cons.injEq] at hlist
        exact absurd hlist.1 hb
      · rename_i hfe hlist
        rw [List.cons.injEq] at hlist
        exact absurd hlist.1 hb
      · rename_i hfe hlist
        rw [List.cons.injEq] at hlist
        exact absurd hlist.1 hb
      · rename_i g1 g2 fuelv cv rv n1 n2 n3 n4 hfe hlist
        rw [List.cons.injEq] at hlist
        obtain ⟨h1, h2⟩ := hlist
        have hff : fuelv = f := by omega
        subst hff
        subst h1
        rw [← h2, if_neg (by omega), ht]

theorem jStrBody_plain (body rest : List Char) (hok : ∀ c ∈ body, strOkC c = true) :
    jStrBody (body ++ '\x22' :: rest) = some (body, rest) := by
  rw [jStrBody]
  exact jStrBodyF_plain body _ rest (by simp [List.length_append]; omega) hok

theorem jValP_null (fuel : Nat) (hf : 1 ≤ fuel) (r : List Char) :
    jValP fuel ('n' :: 'u' :: 'l' :: 'l' :: r) = some (JVal.null, r) := by
  obtain ⟨f, rfl⟩ : ∃ f, fuel = f + 1 := ⟨fuel - 1, by omega⟩
  simp [jValP]

theorem jValP_true (fuel : Nat) (hf : 1 ≤ fuel) (r : List Char) :
    jValP fuel ('t' :: 'r' :: 'u' :: 'e' :: r) = some (JVal.bool true, r) := by
  obtain ⟨f, rfl⟩ : ∃ f, fuel = f + 1 := ⟨fuel - 1, by omega⟩
  simp [jValP]

theorem jValP_false (fuel : Nat) (hf : 1 ≤ fuel) (r : List Char) :
    jValP fuel ('f' :: 'a' :: 'l' :: 's' :: 'e' :: r) = some (JVal.bool false, r) := by
  obtain ⟨f, rfl⟩ : ∃ f, fuel = f + 1 := ⟨fuel - 1, by omega⟩
  simp [jValP]

theorem jValP_str (fuel : Nat) (hf : 1 ≤ fuel) (body rest : List Char)
    (hok : ∀ c ∈ body, strOkC c = true) :
    jValP fuel ('\x22' :: (body ++ '\x22' :: rest))
      = some (JVal.str (String.mk body), rest) := by
  obtain ⟨f, rfl⟩ : ∃ f, fuel = f + 1 := ⟨fuel - 1, by omega⟩
  simp [jValP, jStrBody_plain body rest hok]

theorem jValP_num_head (fuel : Nat) (hf : 1 ≤ fuel) (d : Char) (t : List Char)
    (hd : isDigitC d = true) (q : ℚ) (rest : List Char)
    (hnum : jNum (d :: t) = some (q, rest)) :
    jValP fuel (d :: t) = some (JVal.num q, rest) := by
  obtain ⟨f, rfl⟩ : ∃ f, fuel = f + 1 := ⟨fuel - 1, by omega⟩
  have hds : (d == '-' || isDigitC d) = true := by simp [hd]
  rw [jValP.eq_def]
  split
  · omega
  · rename_i fuelv hfe
    have hff : fuelv = f := by omega
    subst hff
    split
    · rename_i hlist
      rw [List.cons.injEq] at hlist
      obtain ⟨h1, _⟩ := hlist
      subst h1
      exact absurd hd (by decide)
    · rename_i hlist
      rw [List.cons.injEq] at hlist
      obtain ⟨h1, _⟩ := hlist
      subst h1
      exact absurd hd (by decide)
    · rename_i hlist
      rw [List.cons.injEq] at hlist
      obtain ⟨h1, _⟩ := hlist
      subst h1
      exact absurd hd (by decide)
    · rename_i hlist
      rw [List.cons.injEq] at hlist
      obtain ⟨h1, _⟩ := hlist
      subst h1
      exact absurd hd (by decide)
    · rename_i hlist
      rw [List.cons.injEq] at hlist
      obtain ⟨h1, _⟩ := hlist
      subst h1
      exact absurd hd (by decide)
    · rename_i hlist
      rw [List.cons.injEq] at hlist
      obtain ⟨h1, _⟩ := hlist
      subst h1
      exact absurd hd (by decide)
    · rename_i hlist
      rw [List.cons.injEq] at hlist
      obtain ⟨h1, _⟩ := hlist
      subst h1
      rw [hds]
      simp only [if_true]
      rw [hnum]
    · rename_i hlist
      exact absurd hlist (by simp)

/-- Modelled from the spec: the canonical serialization of a score —
`json.dumps` writes `repr(float(v))`, which for a value with a finite
decimal expansion is digits, a dot, digits (`72.5`, `50.0`). -/
def floatReprL (q : ℚ) : List Char :=
  match decExp q.den with
  | some k => renderDecQ (q.num.natAbs * (10 ^ k / q.den)) k
  | none => natDigitChars q.num.natAbs

theorem digitStop_cons (c : Char) (r : List Char) (h : isDigitC c = false) :
    digitStop (c :: r) := by
  intro x hx
  simp only [List.head?, Option.some.injEq] at hx
  subst hx
  exact h

theorem jNum_floatRepr (q : ℚ) (k : Nat) (rest : List Char)
    (hq : 0 ≤ q) (hk : decExp q.den = some k)
    (hstop : digitStop rest)
    (hdelim : ∀ c, rest.head? = some c → c ≠ 'e' ∧ c ≠ 'E') :
    jNum (floatReprL q ++ rest) = some (q, rest) := by
  have hdvd : q.den ∣ 10 ^ k := by
    have hk2 := hk
    rw [decExp] at hk2
    exact of_decide_eq_true
      (@List.find?_some _ (fun j => decide (q.den ∣ 10 ^ j)) k (List.range (q.den + 1)) hk2)
  obtain ⟨intDs, fracDs, hrend, hshape, hint, hfne, hfrac, hval⟩ :=
    renderDecQ_spec (q.num.natAbs * (10 ^ k / q.den)) k
  have hfl : floatReprL q = intDs ++ '.' :: fracDs := by
    simp only [floatReprL, hk]
    exact hrend
  have hc : ((10 ^ k / q.den) * q.den : ℕ) = 10 ^ k := Nat.div_mul_cancel hdvd
  have hden : (q.den : ℚ) ≠ 0 := by
    exact_mod_cast q.den_nz
  have hcq : ((10 ^ k / q.den : ℕ) : ℚ) * (q.den : ℚ) = (10 : ℚ) ^ k := by
    exact_mod_cast congrArg (fun n : ℕ => (n : ℚ)) hc
  have hnum : ((q.num.natAbs : ℕ) : ℚ) = (q.num : ℚ) := by
    have h := Int.natAbs_of_nonneg (Rat.num_nonneg.mpr hq)
    rw [show ((q.num.natAbs : ℕ) : ℚ) = (((q.num.natAbs : ℕ) : ℤ) : ℚ) from
      (Int.cast_natCast _).symm, h]
  have h10 : ((10 : ℚ) ^ k) ≠ 0 := by positivity
  have hm : ((q.num.natAbs * (10 ^ k / q.den) : ℕ) : ℚ) / (10 : ℚ) ^ k = q := by
    rw [div_eq_iff h10, Nat.cast_mul, hnum]
    conv_rhs => rw [← Rat.num_div_den q, ← hcq]
    rw [show (q.num : ℚ) / (q.den : ℚ) * (((10 ^ k / q.den : ℕ) : ℚ) * (q.den : ℚ))
        = (q.num : ℚ) * ((10 ^ k / q.den : ℕ) : ℚ) * ((q.den : ℚ) / (q.den : ℚ)) from by
      ring]
    rw [div_self hden, mul_one]
  have hval' : (digitsNat intDs : ℚ) + (digitsNat fracDs : ℚ) / (10 : ℚ) ^ fracDs.length
      = q := by
    rw [hval]
    exact hm
  rw [hfl, List.append_assoc, List.cons_append,
    jNum_decimal intDs fracDs rest hshape hint hfne hfrac hstop hdelim, hval']

theorem floatRepr_head_digit (q : ℚ) (k : Nat) (hk : decExp q.den = some k) :
    ∃ d t, floatReprL q = d :: t ∧ isDigitC d = true := by
  obtain ⟨intDs, fracDs, hrend, hshape, hint, _, _, _⟩ :=
    renderDecQ_spec (q.num.natAbs * (10 ^ k / q.den)) k
  have hfl : floatReprL q = intDs ++ '.' :: fracDs := by
    simp only [floatReprL, hk]
    exact hrend
  rcases hshape with rfl | ⟨d, t, hdt, hd, _⟩
  · exact ⟨'0', '.' :: fracDs, by simp [hfl], by decide⟩
  · exact ⟨d, t ++ '.' :: fracDs, by rw [hfl, hdt, List.cons_append], hd⟩

theorem jValP_floatRepr (fuel : Nat) (hf : 1 ≤ fuel) (q : ℚ) (k : Nat) (rest : List Char)
    (hq : 0 ≤ q) (hk : decExp q.den = some k)
    (hstop : digitStop rest)
    (hdelim : ∀ c, rest.head? = some c → c ≠ 'e' ∧ c ≠ 'E') :
    jValP fuel (floatReprL q ++ rest) = some (JVal.num q, rest) := by
  obtain ⟨d, t, hdt, hd⟩ := floatRepr_head_digit q k hk
  have hnum := jNum_floatRepr q k rest hq hk hstop hdelim
  rw [hdt, List.cons_append] at hnum ⊢
  exact jValP_num_head fuel hf d (t ++ rest) hd q rest hnum

theorem jValP_obj_step (fuel : Nat) (hf : 1 ≤ fuel) (r t : List Char)
    (hskip : jSkipWs r = '\x22' :: t) :
    jValP fuel ('\x7b' :: r)
      = (match jMembersP (fuel - 1) ('\x22' :: t) [] with
         | some (ms, r') => some (JVal.obj ms, r')
         | none => none) := by
  obtain ⟨f, rfl⟩ : ∃ f, fuel = f + 1 := ⟨fuel - 1, by omega⟩
  rw [show f + 1 - 1 = f from rfl]
  simp [jValP, hskip]

theorem jMembersP_step_more (fuel : Nat) (hf : 1 ≤ fuel) (key r2 r4 : List Char)
    (acc : List (String × JVal)) (v : JVal)
    (hkey : ∀ c ∈ key, strOkC c = true)
    (hv : jValP (fuel - 1) (jSkipWs r2) = some (v, ',' :: r4)) :
    jMembersP fuel ('\x22' :: (key ++ '\x22' :: ':' :: r2)) acc
      = jMembersP (fuel - 1) r4 (objUpsert acc (String.mk key) v) := by
  obtain ⟨f, rfl⟩ : ∃ f, fuel = f + 1 := ⟨fuel - 1, by omega⟩
  rw [show f + 1 - 1 = f from rfl] at hv ⊢
  have hkb : jStrBody (key ++ '\x22' :: ':' :: r2) = some (key, ':' :: r2) :=
    jStrBody_plain key (':' :: r2) hkey
  rw [jMembersP.eq_def]
  simp only [jSkipWs_cons_not_ws '\x22' _ (by decide), hkb,
    jSkipWs_cons_not_ws ':' _ (by decide), hv,
    jSkipWs_cons_not_ws ',' _ (by decide)]

theorem jMembersP_step_last (fuel : Nat) (hf : 1 ≤ fuel) (key r2 r4 : List Char)
    (acc : List (String × JVal)) (v : JVal)
    (hkey : ∀ c ∈ key, strOkC c = true)
    (hv : jValP (fuel - 1) (jSkipWs r2) = some (v, '\x7d' :: r4)) :
    jMembersP fuel ('\x22' :: (key ++ '\x22' :: ':' :: r2)) acc
      = some (objUpsert acc (String.mk key) v, r4) := by
  obtain ⟨f, rfl⟩ : ∃ f, fuel = f + 1 := ⟨fuel - 1, by omega⟩
  rw [show f + 1 - 1 = f from rfl] at hv
  have hkb : jStrBody (key ++ '\x22' :: ':' :: r2) = some (key, ':' :: r2) :=
    jStrBody_plain key (':' :: r2) hkey
  rw [jMembersP.eq_def]
  simp only [jSkipWs_cons_not_ws '\x22' _ (by decide), hkb,
    jSkipWs_cons_not_ws ':' _ (by decide), hv,
    jSkipWs_cons_not_ws '\x7d' _ (by decide)]

/-- Modelled from the spec: `json.dumps` of a boolean. -/
def boolLit : Bool → List Char
  | true => ['t', 'r', 'u', 'e']
  | false => ['f', 'a', 'l', 's', 'e']

/-- Modelled from the spec: `json.dumps` of an `extracted_data` field value
as the amended round-trip statement constrains it — `null`, or a quoted
string of plain characters (other values do not occur under its
hypotheses and serialize as `null`). -/
def extFieldLit : JVal → List Char
  | .str s => '\x22' :: (s.data ++ ['\x22'])
  | .bool true => ['t', 'r', 'u', 'e']
  | .bool false => ['f', 'a', 'l', 's', 'e']
  | _ => ['n', 'u', 'l', 'l']

/-- A field value the round trip preserves: `None`, or a plain-character
string that is not a null sentinel (and holds no backtick, so the fence
strippers pass it through). -/
def extOk (v : JVal) : Prop :=
  v = JVal.null
  ∨ ∃ s : String, v = JVal.str s ∧ isNullSentinel (JVal.str s) = false
      ∧ ∀ c ∈ s.data, strOkC c = true ∧ c ≠ '\x60'

theorem jValP_boolLit (fuel : Nat) (hf : 1 ≤ fuel) (b : Bool) (rest : List Char) :
    jValP fuel (boolLit b ++ rest) = some (JVal.bool b, rest) := by
  cases b
  · simp only [boolLit, List.cons_append, List.nil_append]
    exact jValP_false fuel hf rest
  · simp only [boolLit, List.cons_append, List.nil_append]
    exact jValP_true fuel hf rest

theorem jValP_extField (fuel : Nat) (hf : 1 ≤ fuel) (v : JVal) (rest : List Char)
    (hv : extOk v) :
    jValP fuel (extFieldLit v ++ rest) = some (v, rest) := by
  rcases hv with rfl | ⟨s, rfl, _, hs⟩
  · simp only [extFieldLit, List.cons_append, List.nil_append]
    exact jValP_null fuel hf rest
  · simp only [extFieldLit, List.cons_append, List.append_assoc, List.singleton_append,
      List.nil_append]
    exact jValP_str fuel hf s.data rest (fun c hc => (hs c hc).1)

theorem hasPre_head_ne (p c : Char) (ps r : List Char) (h : p ≠ c) :
    hasPre (p :: ps) (c :: r) = false := by
  have hb : (p == c) = false := beq_eq_false_iff_ne.mpr h
  simp [hasPre, hb]

theorem containsL_false (c : Char) (p cs : List Char) (h : c ∉ cs) :
    containsL (c :: p) cs = false := by
  induction cs with
  | nil => rfl
  | cons a t ih =>
      have hca : c ≠ a := fun e => h (e ▸ List.mem_cons_self a t)
      have ht : c ∉ t := fun m => h (List.mem_cons_of_mem a m)
      simp [containsL, hasPre, beq_eq_false_iff_ne.mpr hca, ih ht]

theorem notMem_cons (x a : Char) (l : List Char) (h1 : x ≠ a) (h2 : x ∉ l) :
    x ∉ a :: l := by
  simp [List.mem_cons, h1, h2]

theorem notMem_append (x : Char) (A B : List Char) (h1 : x ∉ A) (h2 : x ∉ B) :
    x ∉ A ++ B := by
  simp [List.mem_append, h1, h2]

theorem hasSuf_bt_last (cs A : List Char) (b : Char) (hcs : cs = A ++ [b])
    (hb : b ≠ '\x60') :
    hasSuf ['\x60', '\x60', '\x60'] cs = false := by
  subst hcs
  rw [hasSuf, List.reverse_append]
  simp only [List.reverse_cons, List.reverse_nil, List.nil_append, List.singleton_append]
  exact hasPre_head_ne '\x60' b _ _ (fun e => hb e.symm)

theorem jMembersP_skip_ws (fuel : Nat) (c : Char) (hc : isJWs c = true)
    (cs : List Char) (acc : List (String × JVal)) :
    jMembersP fuel (c :: cs) acc = jMembersP fuel cs acc := by
  conv_lhs => rw [jMembersP.eq_def]
  conv_rhs => rw [jMembersP.eq_def]
  rw [jSkipWs_cons_ws c cs hc]

theorem delim_cons (c : Char) (r : List Char) (h1 : c ≠ 'e') (h2 : c ≠ 'E') :
    ∀ x, (c :: r).head? = some x → x ≠ 'e' ∧ x ≠ 'E' := by
  intro x hx
  simp only [List.head?, Option.some.injEq] at hx
  subst hx
  exact ⟨h1, h2⟩

theorem floatReprL_digits (q : ℚ) (k : Nat) (hk : decExp q.den = some k) :
    ∀ c ∈ floatReprL q, isDigitC c = true ∨ c = '.' := by
  obtain ⟨intDs, fracDs, hrend, _, hint, _, hfrac, _⟩ :=
    renderDecQ_spec (q.num.natAbs * (10 ^ k / q.den)) k
  rw [show floatReprL q = intDs ++ '.' :: fracDs from by
    simp only [floatReprL, hk]; exact hrend]
  intro c hc
  rcases List.mem_append.mp hc with h | h
  · exact Or.inl (hint c h)
  · rcases List.mem_cons.mp h with rfl | h
    · exact Or.inr rfl
    · exact Or.inl (hfrac c h)

theorem floatReprL_no_bt (q : ℚ) (k : Nat) (hk : decExp q.den = some k) :
    '\x60' ∉ floatReprL q := by
  intro hm
  rcases floatReprL_digits q k hk _ hm with h | h
  · exact absurd h (by decide)
  · exact absurd h (by decide)

/-- Modelled from the spec: the canonical JSON serialization of an
`AnalysisResult` — Python `json.dumps` of the record dict with its default
separators — split as the text between the braces. -/
def analysisRecordMid (q : ℚ) (tips : List Char) : List Char :=
  '\x22' :: (['m', 'a', 't', 'c', 'h', '_', 's', 'c', 'o', 'r', 'e'] ++
    ('\x22' :: ':' :: ' ' :: (floatReprL q ++
      (',' :: ' ' :: '\x22' :: (['t', 'i', 'p', 's'] ++
        ('\x22' :: ':' :: ' ' :: '\x22' :: (tips ++ ['\x22'])))))))

/-- Modelled from the spec: the canonical JSON serialization of an
`AnalysisResult`. -/
def analysisRecordLit (q : ℚ) (tips : List Char) : List Char :=
  '\x7b' :: (analysisRecordMid q tips ++ ['\x7d'])

theorem analysisRecordLit_flat (q : ℚ) (tips : List Char) :
    analysisRecordLit q tips
      = '\x7b' :: '\x22' :: (['m', 'a', 't', 'c', 'h', '_', 's', 'c', 'o', 'r', 'e'] ++
          ('\x22' :: ':' :: ' ' :: (floatReprL q ++
            (',' :: ' ' :: '\x22' :: (['t', 'i', 'p', 's'] ++
              ('\x22' :: ':' :: ' ' :: '\x22' :: (tips ++ ['\x22', '\x7d']))))))) := by
  simp [analysisRecordLit, analysisRecordMid, List.append_assoc, List.cons_append]

theorem jValP_analysisRecord (fuel : Nat) (hf : 4 ≤ fuel) (q : ℚ) (k : Nat)
    (tips : List Char) (hq : 0 ≤ q) (hk : decExp q.den = some k)
    (htips : ∀ c ∈ tips, strOkC c = true) :
    jValP fuel ('\x7b' :: '\x22' :: (['m', 'a', 't', 'c', 'h', '_', 's', 'c', 'o', 'r', 'e'] ++
      ('\x22' :: ':' :: ' ' :: (floatReprL q ++
        (',' :: ' ' :: '\x22' :: (['t', 'i', 'p', 's'] ++
          ('\x22' :: ':' :: ' ' :: '\x22' :: (tips ++ ['\x22', '\x7d']))))))))
      = some (JVal.obj [("match_score", JVal.num q), ("tips", JVal.str (String.mk tips))],
          []) := by
  have hv1 : jValP (fuel - 1 - 1)
      (jSkipWs (' ' :: (floatReprL q ++
        (',' :: ' ' :: '\x22' :: (['t', 'i', 'p', 's'] ++
          ('\x22' :: ':' :: ' ' :: '\x22' :: (tips ++ ['\x22', '\x7d'])))))))
      = some (JVal.num q,
          ',' :: ' ' :: '\x22' :: (['t', 'i', 'p', 's'] ++
            ('\x22' :: ':' :: ' ' :: '\x22' :: (tips ++ ['\x22', '\x7d'])))) := by
    rw [jSkipWs_cons_ws ' ' _ (by decide)]
    obtain ⟨d, t, hdt, hd⟩ := floatRepr_head_digit q k hk
    rw [hdt, List.cons_append, jSkipWs_cons_not_ws d _ (not_jws_of_digit d hd),
      ← List.cons_append, ← hdt]
    exact jValP_floatRepr _ (by omega) q k _ hq hk
      (digitStop_cons ',' _ (by decide)) (delim_cons ',' _ (by decide) (by decide))
  have hv2 : jValP (fuel - 1 - 1 - 1)
      (jSkipWs (' ' :: '\x22' :: (tips ++ ['\x22', '\x7d'])))
      = some (JVal.str (String.mk tips), '\x7d' :: []) := by
    rw [jSkipWs_cons_ws ' ' _ (by decide), jSkipWs_cons_not_ws '\x22' _ (by decide)]
    exact jValP_str _ (by omega) tips ['\x7d'] htips
  rw [jValP_obj_step fuel (by omega) _ _ (jSkipWs_cons_not_ws '\x22' _ (by decide))]
  rw [jMembersP_step_more (fuel - 1) (by omega) _ _ _ _ _ (by decide) hv1]
  rw [jMembersP_skip_ws (fuel - 1 - 1) ' ' (by decide)]
  rw [jMembersP_step_last (fuel - 1 - 1) (by omega) _ _ _ _ _ (by decide) hv2]
  rw [show String.mk ['m', 'a', 't', 'c', 'h', '_', 's', 'c', 'o', 'r', 'e']
      = "match_score" from rfl]
  rw [show String.mk ['t', 'i', 'p', 's'] = "tips" from rfl]
  simp [objUpsert, show (("match_score" : String) == "tips") = false from by decide]

theorem jsonLoads_analysisRecord (q : ℚ) (k : Nat) (tips : List Char)
    (hq : 0 ≤ q) (hk : decExp q.den = some k)
    (htips : ∀ c ∈ tips, strOkC c = true) :
    jsonLoads (String.mk (analysisRecordLit q tips))
      = some (JVal.obj [("match_score", JVal.num q), ("tips", JVal.str (String.mk tips))]) := by
  have hdata : (String.mk (analysisRecordLit q tips)).data = analysisRecordLit q tips := rfl
  have hskip : jSkipWs (analysisRecordLit q tips) = analysisRecordLit q tips := by
    rw [analysisRecordLit_flat]
    exact jSkipWs_cons_not_ws _ _ (by decide)
  have hlen : 4 ≤ (analysisRecordLit q tips).length := by
    rw [analysisRecordLit_flat]
    simp [List.length_append]
  simp only [jsonLoads, hdata, hskip]
  rw [analysisRecordLit_flat] at hlen ⊢
  rw [jValP_analysisRecord _ (by omega) q k tips hq hk htips]
  rfl

theorem analysisCleanL_recordLit (q : ℚ) (k : Nat) (tips : List Char)
    (hk : decExp q.den = some k)
    (htips : ∀ c ∈ tips, c ≠ '\x60') :
    analysisCleanL (analysisRecordLit q tips) = analysisRecordLit q tips := by
  have hstrip : pyStripL (analysisRecordLit q tips) = analysisRecordLit q tips := by
    rw [analysisRecordLit]
    exact pyStripL_bounds _ (by decide) (by decide)
  have hbq : '\x60' ∉ analysisRecordLit q tips := by
    rw [analysisRecordLit]
    apply notMem_cons _ _ _ (by decide)
    apply notMem_append _ _ _ ?_ (by decide)
    rw [analysisRecordMid]
    apply notMem_cons _ _ _ (by decide)
    apply notMem_append _ _ _ (by decide)
    apply notMem_cons _ _ _ (by decide)
    apply notMem_cons _ _ _ (by decide)
    apply notMem_cons _ _ _ (by decide)
    apply notMem_append _ _ _ (floatReprL_no_bt q k hk)
    apply notMem_cons _ _ _ (by decide)
    apply notMem_cons _ _ _ (by decide)
    apply notMem_cons _ _ _ (by decide)
    apply notMem_append _ _ _ (by decide)
    apply notMem_cons _ _ _ (by decide)
    apply notMem_cons _ _ _ (by decide)
    apply notMem_cons _ _ _ (by decide)
    apply notMem_cons _ _ _ (by decide)
    apply notMem_append _ _ _ ?_ (by decide)
    intro hm
    exact absurd rfl (htips _ hm)
  have hcont : containsL ['\x60', '\x60', '\x60']
      (pyStripL (analysisRecordLit q tips)) = false := by
    rw [hstrip]
    exact containsL_false _ _ _ hbq
  rw [analysisCleanL, hcont]
  simp [hstrip]

theorem analysisRoundTrip (q : ℚ) (k : Nat) (tips : List Char)
    (hq0 : 0 ≤ q) (hq1 : q ≤ 100) (hk : decExp q.den = some k)
    (htips : ∀ c ∈ tips, strOkC c = true ∧ c ≠ '\x60') :
    parseAnalysisResponse (String.mk (analysisRecordLit q tips))
      = ⟨q, String.mk tips⟩ := by
  have hclean : analysisClean (String.mk (analysisRecordLit q tips))
      = String.mk (analysisRecordLit q tips) := by
    rw [analysisClean,
      show (String.mk (analysisRecordLit q tips)).data = analysisRecordLit q tips from rfl,
      analysisCleanL_recordLit q k tips hk (fun c hc => (htips c hc).2)]
  have hloads := jsonLoads_analysisRecord q k tips hq0 hk (fun c hc => (htips c hc).1)
  have e1 : (("match_score" : String) == "match_score") = true := by decide
  have e2 : (("match_score" : String) == "tips") = false := by decide
  have e3 : (("tips" : String) == "tips") = true := by decide
  simp only [parseAnalysisResponse, parseAnalysisResponseE, hclean, hloads,
    validateAndReturnE, dictGetD, lookupKey, e1, e2, e3, if_true, if_false, pyFloat,
    pyStr]
  rw [pyClamp_of_mem q hq0 hq1]
  simp

theorem jSkipWs_boolLit (b : Bool) (X : List Char) :
    jSkipWs (boolLit b ++ X) = boolLit b ++ X := by
  cases b
  · simp only [boolLit, List.cons_append]
    exact jSkipWs_cons_not_ws _ _ (by decide)
  · simp only [boolLit, List.cons_append]
    exact jSkipWs_cons_not_ws _ _ (by decide)

theorem jSkipWs_extField (v : JVal) (X : List Char) :
    jSkipWs (extFieldLit v ++ X) = extFieldLit v ++ X := by
  cases v with
  | str s =>
      simp only [extFieldLit, List.cons_append]
      exact jSkipWs_cons_not_ws _ _ (by decide)
  | bool b =>
      cases b
      · simp only [extFieldLit, List.cons_append]
        exact jSkipWs_cons_not_ws _ _ (by decide)
      · simp only [extFieldLit, List.cons_append]
        exact jSkipWs_cons_not_ws _ _ (by decide)
  | null =>
      simp only [extFieldLit, List.cons_append]
      exact jSkipWs_cons_not_ws _ _ (by decide)
  | num q =>
      simp only [extFieldLit, List.cons_append]
      exact jSkipWs_cons_not_ws _ _ (by decide)
  | arr es =>
      simp only [extFieldLit, List.cons_append]
      exact jSkipWs_cons_not_ws _ _ (by decide)
  | obj ms =>
      simp only [extFieldLit, List.cons_append]
      exact jSkipWs_cons_not_ws _ _ (by decide)

theorem extField_no_bt (v : JVal) (hv : extOk v) : '\x60' ∉ extFieldLit v := by
  rcases hv with rfl | ⟨s, rfl, _, hs⟩
  · decide
  · simp only [extFieldLit]
    apply notMem_cons _ _ _ (by decide)
    apply notMem_append _ _ _ ?_ (by decide)
    intro hm
    exact absurd rfl (hs _ hm).2

/-- Modelled from the spec: the canonical JSON serialization of a
`GeminiResult` (Python `json.dumps` with default separators), split as the
text between the outer braces. -/
def geminiRecordMid (b : Bool) (q : ℚ) (ev : List Char) (c l i : JVal) : List Char :=
  '\x22' :: (['i', 's', '_', 'a', 'u', 't', 'h', 'e', 'n', 't', 'i', 'c'] ++
    ('\x22' :: ':' :: ' ' :: (boolLit b ++
      (',' :: ' ' :: '\x22' ::
        (['c', 'o', 'n', 'f', 'i', 'd', 'e', 'n', 'c', 'e', '_', 's', 'c', 'o', 'r', 'e'] ++
        ('\x22' :: ':' :: ' ' :: (floatReprL q ++
          (',' :: ' ' :: '\x22' :: (['e', 'v', 'i', 'd', 'e', 'n', 'c', 'e'] ++
            ('\x22' :: ':' :: ' ' :: '\x22' :: (ev ++
              ('\x22' :: ',' :: ' ' :: '\x22' ::
                (['e', 'x', 't', 'r', 'a', 'c', 't', 'e', 'd', '_', 'd', 'a', 't', 'a'] ++
                ('\x22' :: ':' :: ' ' :: '\x7b' :: '\x22' ::
                  (['c', 'o', 'm', 'p', 'a', 'n', 'y'] ++
                  ('\x22' :: ':' :: ' ' :: (extFieldLit c ++
                    (',' :: ' ' :: '\x22' :: (['l', 'o', 'c', 'a', 't', 'i', 'o', 'n'] ++
                      ('\x22' :: ':' :: ' ' :: (extFieldLit l ++
                        (',' :: ' ' :: '\x22' ::
                          (['i', 'n', 'd', 'u', 's', 't', 'r', 'y'] ++
                          ('\x22' :: ':' :: ' ' ::
                            (extFieldLit i ++ ['\x7d'])))))))))))))))))))))))))

/-- Modelled from the spec: the canonical JSON serialization of a
`GeminiResult`. -/
def geminiRecordLit (b : Bool) (q : ℚ) (ev : List Char) (c l i : JVal) : List Char :=
  '\x7b' :: (geminiRecordMid b q ev c l i ++ ['\x7d'])

theorem geminiRecordLit_flat (b : Bool) (q : ℚ) (ev : List Char) (c l i : JVal) :
    geminiRecordLit b q ev c l i
      = '\x7b' :: '\x22' :: (['i', 's', '_', 'a', 'u', 't', 'h', 'e', 'n', 't', 'i', 'c'] ++
          ('\x22' :: ':' :: ' ' :: (boolLit b ++
            (',' :: ' ' :: '\x22' ::
              (['c', 'o', 'n', 'f', 'i', 'd', 'e', 'n', 'c', 'e', '_', 's', 'c', 'o', 'r', 'e'] ++
              ('\x22' :: ':' :: ' ' :: (floatReprL q ++
                (',' :: ' ' :: '\x22' :: (['e', 'v', 'i', 'd', 'e', 'n', 'c', 'e'] ++
                  ('\x22' :: ':' :: ' ' :: '\x22' :: (ev ++
                    ('\x22' :: ',' :: ' ' :: '\x22' ::
                      (['e', 'x', 't', 'r', 'a', 'c', 't', 'e', 'd', '_', 'd', 'a', 't', 'a'] ++
                      ('\x22' :: ':' :: ' ' :: '\x7b' :: '\x22' ::
                        (['c', 'o', 'm', 'p', 'a', 'n', 'y'] ++
                        ('\x22' :: ':' :: ' ' :: (extFieldLit c ++
                          (',' :: ' ' :: '\x22' ::
                            (['l', 'o', 'c', 'a', 't', 'i', 'o', 'n'] ++
                            ('\x22' :: ':' :: ' ' :: (extFieldLit l ++
                              (',' :: ' ' :: '\x22' ::
                                (['i', 'n', 'd', 'u', 's', 't', 'r', 'y'] ++
                                ('\x22' :: ':' :: ' ' ::
                                  (extFieldLit i ++ ['\x7d', '\x7d']))))))))))))))))))))))))) := by
  simp [geminiRecordLit, geminiRecordMid, List.append_assoc, List.cons_append]

theorem jValP_geminiRecord (fuel : Nat) (hf : 10 ≤ fuel) (b : Bool) (q : ℚ) (k : Nat)
    (ev : List Char) (c l i : JVal)
    (hq : 0 ≤ q) (hk : decExp q.den = some k)
    (hev : ∀ x ∈ ev, strOkC x = true)
    (hc : extOk c) (hl : extOk l) (hi : extOk i) :
    jValP fuel (geminiRecordLit b q ev c l i)
      = some (JVal.obj [("is_authentic", JVal.bool b), ("confidence_score", JVal.num q),
          ("evidence", JVal.str (String.mk ev)),
          ("extracted_data", JVal.obj [("company", c), ("location", l), ("industry", i)])],
          []) := by
  have hv4 : jValP (fuel - 1 - 1 - 1 - 1 - 1)
      (jSkipWs (' ' :: '\x7b' :: '\x22' :: (['c', 'o', 'm', 'p', 'a', 'n', 'y'] ++
        ('\x22' :: ':' :: ' ' :: (extFieldLit c ++
          (',' :: ' ' :: '\x22' :: (['l', 'o', 'c', 'a', 't', 'i', 'o', 'n'] ++
            ('\x22' :: ':' :: ' ' :: (extFieldLit l ++
              (',' :: ' ' :: '\x22' :: (['i', 'n', 'd', 'u', 's', 't', 'r', 'y'] ++
                ('\x22' :: ':' :: ' ' :: (extFieldLit i ++ ['\x7d', '\x7d'])))))))))))))
      = some (JVal.obj [("company", c), ("location", l), ("industry", i)], '\x7d' :: []) := by
    rw [jSkipWs_cons_ws ' ' _ (by decide), jSkipWs_cons_not_ws '\x7b' _ (by decide)]
    rw [jValP_obj_step (fuel - 1 - 1 - 1 - 1 - 1) (by omega) _ _
      (jSkipWs_cons_not_ws '\x22' _ (by decide))]
    rw [jMembersP_step_more (fuel - 1 - 1 - 1 - 1 - 1 - 1) (by omega) _ _ _ _ _ (by decide)
      (by rw [jSkipWs_cons_ws ' ' _ (by decide), jSkipWs_extField]
          exact jValP_extField _ (by omega) c _ hc)]
    rw [jMembersP_skip_ws _ ' ' (by decide)]
    rw [jMembersP_step_more (fuel - 1 - 1 - 1 - 1 - 1 - 1 - 1) (by omega) _ _ _ _ _ (by decide)
      (by rw [jSkipWs_cons_ws ' ' _ (by decide), jSkipWs_extField]
          exact jValP_extField _ (by omega) l _ hl)]
    rw [jMembersP_skip_ws _ ' ' (by decide)]
    rw [jMembersP_step_last (fuel - 1 - 1 - 1 - 1 - 1 - 1 - 1 - 1) (by omega) _ _ _ _ _
      (by decide)
      (by rw [jSkipWs_cons_ws ' ' _ (by decide), jSkipWs_extField]
          exact jValP_extField _ (by omega) i _ hi)]
    rw [show String.mk ['c', 'o', 'm', 'p', 'a', 'n', 'y'] = "company" from rfl,
      show String.mk ['l', 'o', 'c', 'a', 't', 'i', 'o', 'n'] = "location" from rfl,
      show String.mk ['i', 'n', 'd', 'u', 's', 't', 'r', 'y'] = "industry" from rfl]
    simp [objUpsert, show (("company" : String) == "location") = false from by decide,
      show (("company" : String) == "industry") = false from by decide,
      show (("location" : String) == "industry") = false from by decide]
  rw [geminiRecordLit_flat]
  rw [jValP_obj_step fuel (by omega) _ _ (jSkipWs_cons_not_ws '\x22' _ (by decide))]
  rw [jMembersP_step_more (fuel - 1) (by omega) _ _ _ _ _ (by decide)
    (by rw [jSkipWs_cons_ws ' ' _ (by decide), jSkipWs_boolLit]
        exact jValP_boolLit _ (by omega) b _)]
  rw [jMembersP_skip_ws (fuel - 1 - 1) ' ' (by decide)]
  rw [jMembersP_step_more (fuel - 1 - 1) (by omega) _ _ _ _ _ (by decide)
    (by rw [jSkipWs_cons_ws ' ' _ (by decide)]
        obtain ⟨d, t, hdt, hd⟩ := floatRepr_head_digit q k hk
        rw [hdt, List.cons_append, jSkipWs_cons_not_ws d _ (not_jws_of_digit d hd),
          ← List.cons_append, ← hdt]
        exact jValP_floatRepr _ (by omega) q k _ hq hk
          (digitStop_cons ',' _ (by decide)) (delim_cons ',' _ (by decide) (by decide)))]
  rw [jMembersP_skip_ws (fuel - 1 - 1 - 1) ' ' (by decide)]
  rw [jMembersP_step_more (fuel - 1 - 1 - 1) (by omega) _ _ _ _ _ (by decide)
    (by rw [jSkipWs_cons_ws ' ' _ (by decide), jSkipWs_cons_not_ws '\x22' _ (by decide)]
        exact jValP_str _ (by omega) ev _ hev)]
  rw [jMembersP_skip_ws (fuel - 1 - 1 - 1 - 1) ' ' (by decide)]
  rw [jMembersP_step_last (fuel - 1 - 1 - 1 - 1) (by omega) _ _ _ _ _ (by decide) hv4]
  rw [show String.mk ['i', 's', '_', 'a', 'u', 't', 'h', 'e', 'n', 't', 'i', 'c']
      = "is_authentic" from rfl,
    show String.mk ['c', 'o', 'n', 'f', 'i', 'd', 'e', 'n', 'c', 'e', '_',
      's', 'c', 'o', 'r', 'e'] = "confidence_score" from rfl,
    show String.mk ['e', 'v', 'i', 'd', 'e', 'n', 'c', 'e'] = "evidence" from rfl,
    show String.mk ['e', 'x', 't', 'r', 'a', 'c', 't', 'e', 'd', '_', 'd', 'a', 't', 'a']
      = "extracted_data" from rfl]
  simp [objUpsert,
    show (("is_authentic" : String) == "confidence_score") = false from by decide,
    show (("is_authentic" : String) == "evidence") = false from by decide,
    show (("is_authentic" : String) == "extracted_data") = false from by decide,
    show (("confidence_score" : String) == "evidence") = false from by decide,
    show (("confidence_score" : String) == "extracted_data") = false from by decide,
    show (("evidence" : String) == "extracted_data") = false from by decide]

theorem jsonLoads_geminiRecord (b : Bool) (q : ℚ) (k : Nat) (ev : List Char)
    (c l i : JVal) (hq : 0 ≤ q) (hk : decExp q.den = some k)
    (hev : ∀ x ∈ ev, strOkC x = true)
    (hc : extOk c) (hl : extOk l) (hi : extOk i) :
    jsonLoads (String.mk (geminiRecordLit b q ev c l i))
      = some (JVal.obj [("is_authentic", JVal.bool b), ("confidence_score", JVal.num q),
          ("evidence", JVal.str (String.mk ev)),
          ("extracted_data", JVal.obj [("company", c), ("location", l), ("industry", i)])]) := by
  have hdata : (String.mk (geminiRecordLit b q ev c l i)).data
      = geminiRecordLit b q ev c l i := rfl
  have hskip : jSkipWs (geminiRecordLit b q ev c l i) = geminiRecordLit b q ev c l i := by
    rw [geminiRecordLit]
    exact jSkipWs_cons_not_ws _ _ (by decide)
  have hlen : 10 ≤ (geminiRecordLit b q ev c l i).length := by
    rw [geminiRecordLit_flat]
    simp [List.length_append]
  simp only [jsonLoads, hdata, hskip]
  rw [jValP_geminiRecord _ (by omega) b q k ev c l i hq hk hev hc hl hi]
  rfl

theorem geminiFenceStripL_recordLit (b : Bool) (q : ℚ) (ev : List Char) (c l i : JVal) :
    geminiFenceStripL (geminiRecordLit b q ev c l i) = geminiRecordLit b q ev c l i := by
  have hstrip : pyStripL (geminiRecordLit b q ev c l i) = geminiRecordLit b q ev c l i := by
    rw [geminiRecordLit]
    exact pyStripL_bounds _ (by decide) (by decide)
  have h7 : hasPre ['\x60', '\x60', '\x60', 'j', 's', 'o', 'n']
      (geminiRecordLit b q ev c l i) = false := by
    rw [geminiRecordLit]
    exact hasPre_head_ne _ _ _ _ (by decide)
  have h3 : hasPre ['\x60', '\x60', '\x60'] (geminiRecordLit b q ev c l i) = false := by
    rw [geminiRecordLit]
    exact hasPre_head_ne _ _ _ _ (by decide)
  have hs3 : hasSuf ['\x60', '\x60', '\x60'] (geminiRecordLit b q ev c l i) = false := by
    refine hasSuf_bt_last _ ('\x7b' :: geminiRecordMid b q ev c l i) '\x7d' ?_ (by decide)
    rw [geminiRecordLit]
    simp [List.cons_append]
  rw [geminiFenceStripL, hstrip, geminiDropHead, h7, h3]
  simp only [Bool.false_eq_true, if_false]
  rw [geminiDropTail, hs3]
  simp only [Bool.false_eq_true, if_false]
  exact hstrip

theorem geminiRoundTrip (b : Bool) (q : ℚ) (k : Nat) (ev : List Char) (c l i : JVal)
    (hq0 : 0 ≤ q) (hq1 : q ≤ 100) (hk : decExp q.den = some k)
    (hev : ∀ x ∈ ev, strOkC x = true)
    (hc : extOk c) (hl : extOk l) (hi : extOk i) :
    parseGeminiResponse (String.mk (geminiRecordLit b q ev c l i))
      = .ok ⟨b, q, String.mk ev,
          JVal.obj [("company", c), ("location", l), ("industry", i)]⟩ := by
  have hdata : (String.mk (geminiRecordLit b q ev c l i)).data
      = geminiRecordLit b q ev c l i := rfl
  have hfence : geminiFenceStrip (String.mk (geminiRecordLit b q ev c l i))
      = String.mk (geminiRecordLit b q ev c l i) := by
    rw [geminiFenceStrip, hdata, geminiFenceStripL_recordLit]
  have hloads := jsonLoads_geminiRecord b q k ev c l i hq0 hk hev hc hl hi
  have e1 : (("is_authentic" : String) == "is_authentic") = true := by decide
  have e2 : (("is_authentic" : String) == "confidence_score") = false := by decide
  have e3 : (("confidence_score" : String) == "confidence_score") = true := by decide
  have e4 : (("is_authentic" : String) == "evidence") = false := by decide
  have e5 : (("confidence_score" : String) == "evidence") = false := by decide
  have e6 : (("evidence" : String) == "evidence") = true := by decide
  have e7 : (("is_authentic" : String) == "extracted_data") = false := by decide
  have e8 : (("confidence_score" : String) == "extracted_data") = false := by decide
  have e9 : (("evidence" : String) == "extracted_data") = false := by decide
  have e10 : (("extracted_data" : String) == "extracted_data") = true := by decide
  have f1 : (("company" : String) == "company") = true := by decide
  have f2 : (("company" : String) == "location") = false := by decide
  have f3 : (("location" : String) == "location") = true := by decide
  have f4 : (("company" : String) == "industry") = false := by decide
  have f5 : (("location" : String) == "industry") = false := by decide
  have f6 : (("industry" : String) == "industry") = true := by decide
  have hkeepc : (if isNullSentinel c then JVal.null else c) = c := by
    rcases hc with rfl | ⟨s, rfl, hsent, _⟩
    · simp [isNullSentinel]
    · simp [hsent]
  have hkeepl : (if isNullSentinel l then JVal.null else l) = l := by
    rcases hl with rfl | ⟨s, rfl, hsent, _⟩
    · simp [isNullSentinel]
    · simp [hsent]
  have hkeepi : (if isNullSentinel i then JVal.null else i) = i := by
    rcases hi with rfl | ⟨s, rfl, hsent, _⟩
    · simp [isNullSentinel]
    · simp [hsent]
  simp only [parseGeminiResponse, geminiDirect, hfence, hloads, dictGetD, lookupKey,
    e1, e2, e3, e4, e5, e6, e7, e8, e9, e10, if_true, if_false, pyBool, pyFloat,
    pyStr, normalizeExtracted, f1, f2, f3, f4, f5, f6]
  simp [pyClamp_of_mem q hq0 hq1, lookupKey, f1, f2, f3, f4, f5, f6,
    hkeepc, hkeepl, hkeepi]

/-- C4, counterexample: re-extraction is not idempotent on all reachable
records.  The résumé parser's manual tier returns the unclamped record
`(140.0, "x")` for a malformed input; the canonical `json.dumps`
serialization of that record, `\x7b"match_score": 140.0, "tips": "x"\x7d`,
re-extracts through the direct tier, whose `_validate_and_return` clamps —
yielding `(100.0, "x")`, a different record. -/
theorem C4_counterexample :
    parseAnalysisResponse "\x7b\"match_score\": 140, \"tips\": \"x" = ⟨140, "x"⟩
    ∧ parseAnalysisResponse (String.mk (analysisRecordLit 140 "x".data)) = ⟨100, "x"⟩
    ∧ (⟨140, "x"⟩ : AnalysisResult) ≠ ⟨100, "x"⟩ := by
  refine ⟨by decide, by decide, by decide⟩

/-- C4, amended: re-extraction does reproduce the record exactly on the
well-behaved range — a résumé record whose score already lies in `[0, 100]`
with a finite decimal spelling and whose tips hold only plain printable
ASCII (no quote, backslash or backtick), and a gemini record with such a
confidence score and evidence whose `extracted_data` fields are `None` or
plain non-sentinel strings.  Outside that range idempotence fails
(`C4_counterexample`): an out-of-range score is clamped on the second
pass, and a sentinel string such as `"null"` captured by the fallback tier
would be normalized away. -/
theorem C4_amended
    (q : ℚ) (k : Nat) (tips : List Char) (b : Bool) (q2 : ℚ) (k2 : Nat)
    (ev : List Char) (c l i : JVal)
    (hq0 : 0 ≤ q) (hq1 : q ≤ 100) (hk : decExp q.den = some k)
    (htips : ∀ x ∈ tips, strOkC x = true ∧ x ≠ '\x60')
    (hq20 : 0 ≤ q2) (hq21 : q2 ≤ 100) (hk2 : decExp q2.den = some k2)
    (hev : ∀ x ∈ ev, strOkC x = true)
    (hc : extOk c) (hl : extOk l) (hi : extOk i) :
    parseAnalysisResponse (String.mk (analysisRecordLit q tips)) = ⟨q, String.mk tips⟩
    ∧ parseGeminiResponse (String.mk (geminiRecordLit b q2 ev c l i))
        = .ok ⟨b, q2, String.mk ev,
            JVal.obj [("company", c), ("location", l), ("industry", i)]⟩ :=
  ⟨analysisRoundTrip q k tips hq0 hq1 hk htips,
   geminiRoundTrip b q2 k2 ev c l i hq20 hq21 hk2 hev hc hl hi⟩

/-- C4, witness for the amended theorem at concrete inputs: the résumé
record `(72.5, "ok")` and the gemini record
`(True, 80.0, "fine", \x7bcompany: "Acme", location: None, industry: None\x7d)`
both survive the serialize-reparse round trip unchanged. -/
theorem C4_witness :
    (0 : ℚ) ≤ 145 / 2 ∧ (145 / 2 : ℚ) ≤ 100
    ∧ decExp (145 / 2 : ℚ).den = some 1
    ∧ parseAnalysisResponse (String.mk (analysisRecordLit (145 / 2) "ok".data))
        = ⟨145 / 2, "ok"⟩
    ∧ parseGeminiResponse (String.mk (geminiRecordLit true 80 "fine".data
          (JVal.str "Acme") JVal.null JVal.null))
        = .ok ⟨true, 80, "fine",
            JVal.obj [("company", JVal.str "Acme"), ("location", JVal.null),
              ("industry", JVal.null)]⟩ := by
  have h := C4_amended (145 / 2) 1 "ok".data true 80 0 "fine".data
    (JVal.str "Acme") JVal.null JVal.null
    (by decide) (by decide) (by decide) (by decide)
    (by decide) (by decide) (by decide) (by decide)
    (Or.inr ⟨"Acme", rfl, by decide, by decide⟩) (Or.inl rfl) (Or.inl rfl)
  exact ⟨by decide, by decide, by decide, h.1, h.2⟩
